import Mathlib

/-!
Shallow embedding, over the real numbers, of the pricing core of the
FX-option calculator (`src/models` of the repository): the normal CDF/PDF
primitives, the Garman-Kohlhagen d1/d2 kernel, the vanilla, digital,
American (CRR and trinomial lattice), Asian (Monte-Carlo with explicit
draw streams) and combination engines, together with theorems settling
the specification's claims about them.

Sources embedded: `common/normalCdf.ts`, `common/discount.ts`,
`common/gkParams.ts`, `vanilla/garmanKohlhagen.ts`,
`digital/cashOrNothing.ts`, `american/binomialTree.ts`,
`asian/asianPricing.ts` and the combination pricer.
-/

open Real

noncomputable section

namespace FxCalc

/-! ### Probability primitives (`common/normalCdf.ts`) -/

/-- `const SQRT_2PI = Math.sqrt(2 * Math.PI)`. -/
def SQRT_2PI : ℝ := Real.sqrt (2 * Real.pi)

/-- `normalPdf(x) = Math.exp(-0.5 * x * x) / SQRT_2PI`. -/
def normalPdf (x : ℝ) : ℝ := Real.exp (-0.5 * x * x) / SQRT_2PI

/-- The Horner evaluation `y = t*(b1 + t*(b2 + t*(b3 + t*(b4 + t*b5))))`
of the Abramowitz-Stegun 26.2.17 polynomial, with the source's
coefficients `b1..b5`. -/
def asPoly (t : ℝ) : ℝ :=
  t * (0.31938153 + t * (-0.356563782 + t * (1.781477937 +
    t * (-1.821255978 + t * 1.330274429))))

/-- `normalCdf` from `common/normalCdf.ts`: saturates at `|x| ≥ 6`,
`t = 1/(1 + 0.2316419*|x|)`, `phi = exp(-0.5x²)/SQRT_2PI` (that is,
`normalPdf x`), and the sign split `x ≥ 0 ? 1 - phi*y : phi*y`. -/
def normalCdf (x : ℝ) : ℝ :=
  if 6 ≤ x then 1
  else if x ≤ -6 then 0
  else if 0 ≤ x then 1 - normalPdf x * asPoly (1 / (1 + 0.2316419 * |x|))
  else normalPdf x * asPoly (1 / (1 + 0.2316419 * |x|))

/-! ### Discount factors (`common/discount.ts`) -/

/-- `discountDomestic(r_d, T) = Math.exp(-r_d * T)`. -/
def discountDomestic (r_d T : ℝ) : ℝ := Real.exp (-r_d * T)

/-- `discountForeign(r_f, T) = Math.exp(-r_f * T)`. -/
def discountForeign (r_f T : ℝ) : ℝ := Real.exp (-r_f * T)

/-! ### Parameter records (`types.ts`) -/

/-- `OptionType = 'call' | 'put'`. -/
inductive OptionType where
  | call
  | put
deriving DecidableEq

/-- `GKParams`: spot, strike, expiry tenor `T`, optional discount tenor
`T2`, domestic and foreign rates, volatility. -/
structure GKParams where
  S : ℝ
  K : ℝ
  T : ℝ
  T2 : Option ℝ := none
  r_d : ℝ
  r_f : ℝ
  sigma : ℝ

/-! ### d1 / d2 kernel (`common/gkParams.ts`) -/

/-- `d1`: returns 0 when `sigma * Math.sqrt(T) === 0`, otherwise
`(ln(S/K) + (r_d - r_f + 0.5σ²)T) / (σ√T)`. -/
def d1 (p : GKParams) : ℝ :=
  if p.sigma * Real.sqrt p.T = 0 then 0
  else (Real.log (p.S / p.K) + (p.r_d - p.r_f + 0.5 * p.sigma * p.sigma) * p.T) /
    (p.sigma * Real.sqrt p.T)

/-- `d2 = d1 - σ√T`. -/
def d2 (p : GKParams) : ℝ := d1 p - p.sigma * Real.sqrt p.T

/-! ### Vanilla engine (`vanilla/garmanKohlhagen.ts`) -/

namespace Vanilla

/-- `discountT(params) = params.T2 ?? params.T`. -/
def discountT (p : GKParams) : ℝ := p.T2.getD p.T

/-- `priceCall = S * D_f * N(d1) - K * D_d * N(d2)` with `T2` discounting. -/
def priceCall (p : GKParams) : ℝ :=
  p.S * discountForeign p.r_f (discountT p) * normalCdf (d1 p) -
    p.K * discountDomestic p.r_d (discountT p) * normalCdf (d2 p)

/-- `pricePut = K * D_d * N(-d2) - S * D_f * N(-d1)` with `T2` discounting. -/
def pricePut (p : GKParams) : ℝ :=
  p.K * discountDomestic p.r_d (discountT p) * normalCdf (-d2 p) -
    p.S * discountForeign p.r_f (discountT p) * normalCdf (-d1 p)

/-- `price(params, optionType)`. -/
def price (p : GKParams) (ot : OptionType) : ℝ :=
  match ot with
  | .call => priceCall p
  | .put => pricePut p

/-- `delta`: `D_f*N(d1)` for calls, `D_f*(N(d1)-1)` for puts. -/
def delta (p : GKParams) (ot : OptionType) : ℝ :=
  match ot with
  | .call => discountForeign p.r_f (discountT p) * normalCdf (d1 p)
  | .put => discountForeign p.r_f (discountT p) * (normalCdf (d1 p) - 1)

/-- `gamma`: 0 when `σ√T = 0`, else `D_f*φ(d1)/(S*σ√T)` scaled by 1/100. -/
def gamma (p : GKParams) : ℝ :=
  if p.sigma * Real.sqrt p.T = 0 then 0
  else (discountForeign p.r_f (discountT p) * normalPdf (d1 p)) /
    (p.S * (p.sigma * Real.sqrt p.T)) / 100

/-- `vega = S*D_f*√T*φ(d1) / 100` (no degeneracy guard in the source). -/
def vega (p : GKParams) : ℝ :=
  p.S * discountForeign p.r_f (discountT p) * Real.sqrt p.T * normalPdf (d1 p) / 100

/-- `vanna`: 0 when `σ = 0`, else `-S*D_f*√T*φ(d1)*(d2/σ) / 100`. -/
def vanna (p : GKParams) : ℝ :=
  if p.sigma = 0 then 0
  else -p.S * discountForeign p.r_f (discountT p) * Real.sqrt p.T * normalPdf (d1 p) *
    (d2 p / p.sigma) / 100

/-- `volga`: 0 when `σ = 0`, else `vega*d1*d2/σ` (built from the scaled vega). -/
def volga (p : GKParams) : ℝ :=
  if p.sigma = 0 then 0 else vega p * d1 p * d2 p / p.sigma

/-- `theta`: 0 when `σ√T = 0`, else the analytic per-year derivative
(call/put carry terms per the source) divided by 365. -/
def theta (p : GKParams) (ot : OptionType) : ℝ :=
  if p.sigma * Real.sqrt p.T = 0 then 0
  else
    (match ot with
     | .call =>
        -p.S * discountForeign p.r_f (discountT p) * normalPdf (d1 p) * p.sigma /
            (2 * Real.sqrt p.T) +
          p.r_f * p.S * discountForeign p.r_f (discountT p) * normalCdf (d1 p) -
          p.r_d * p.K * discountDomestic p.r_d (discountT p) * normalCdf (d2 p)
     | .put =>
        -p.S * discountForeign p.r_f (discountT p) * normalPdf (d1 p) * p.sigma /
            (2 * Real.sqrt p.T) -
          p.r_f * p.S * discountForeign p.r_f (discountT p) * normalCdf (-d1 p) +
          p.r_d * p.K * discountDomestic p.r_d (discountT p) * normalCdf (-d2 p)) / 365

/-- `rhoD`: `K*T2*D_d*N(d2)` for calls, `-K*T2*D_d*N(-d2)` for puts. -/
def rhoD (p : GKParams) (ot : OptionType) : ℝ :=
  match ot with
  | .call => p.K * discountT p * discountDomestic p.r_d (discountT p) * normalCdf (d2 p)
  | .put => -p.K * discountT p * discountDomestic p.r_d (discountT p) * normalCdf (-d2 p)

/-- `rhoF`: `-S*T2*D_f*N(d1)` for calls, `S*T2*D_f*N(-d1)` for puts. -/
def rhoF (p : GKParams) (ot : OptionType) : ℝ :=
  match ot with
  | .call => -p.S * discountT p * discountForeign p.r_f (discountT p) * normalCdf (d1 p)
  | .put => p.S * discountT p * discountForeign p.r_f (discountT p) * normalCdf (-d1 p)

/-- `timeDecayBumpT1`: central bump of `T` by one day,
`(V(T-1/365) - V(T+1/365)) / 2`. -/
def timeDecayBumpT1 (p : GKParams) (ot : OptionType) : ℝ :=
  (price { p with T := p.T - 1 / 365 } ot - price { p with T := p.T + 1 / 365 } ot) / 2

end Vanilla

/-- `VanillaResult`: the record shape returned by `priceAndGreeks` for the
vanilla engine — every field is unconditionally assigned by the source. -/
structure VanillaResult where
  price : ℝ
  delta : ℝ
  gamma : ℝ
  vega : ℝ
  theta : ℝ
  timeDecayBump : ℝ
  rho_d : ℝ
  rho_f : ℝ
  vanna : ℝ
  volga : ℝ

namespace Vanilla

/-- `priceAndGreeks = { price, ...greeks }` for the vanilla engine. -/
def priceAndGreeks (p : GKParams) (ot : OptionType) : VanillaResult :=
  ⟨price p ot, delta p ot, gamma p, vega p, theta p ot, timeDecayBumpT1 p ot,
    rhoD p ot, rhoF p ot, vanna p, volga p⟩

end Vanilla

/-- Written from the claim's words (refinement target for C3): the call
price `S·e^{-r_f·T2}·Φ(d1) − K·e^{-r_d·T2}·Φ(d2)` with
`d1 = [ln(S/K) + (r_d−r_f+σ²/2)T]/(σ√T)`, `d2 = d1 − σ√T` taken from the
expiry tenor `T` only, and `T2 = T2 ?? T` used only for discounting. -/
def specVanillaCall (p : GKParams) : ℝ :=
  p.S * Real.exp (-p.r_f * p.T2.getD p.T) *
      normalCdf ((Real.log (p.S / p.K) + (p.r_d - p.r_f + p.sigma ^ 2 / 2) * p.T) /
        (p.sigma * Real.sqrt p.T)) -
    p.K * Real.exp (-p.r_d * p.T2.getD p.T) *
      normalCdf ((Real.log (p.S / p.K) + (p.r_d - p.r_f + p.sigma ^ 2 / 2) * p.T) /
          (p.sigma * Real.sqrt p.T) -
        p.sigma * Real.sqrt p.T)

/-- Written from the claim's words (refinement target for C3): the put
price `K·e^{-r_d·T2}·Φ(−d2) − S·e^{-r_f·T2}·Φ(−d1)`. -/
def specVanillaPut (p : GKParams) : ℝ :=
  p.K * Real.exp (-p.r_d * p.T2.getD p.T) *
      normalCdf (-((Real.log (p.S / p.K) + (p.r_d - p.r_f + p.sigma ^ 2 / 2) * p.T) /
            (p.sigma * Real.sqrt p.T) -
          p.sigma * Real.sqrt p.T)) -
    p.S * Real.exp (-p.r_f * p.T2.getD p.T) *
      normalCdf (-((Real.log (p.S / p.K) + (p.r_d - p.r_f + p.sigma ^ 2 / 2) * p.T) /
        (p.sigma * Real.sqrt p.T)))

/-- Concrete at-expiry vanilla input (`T = 0`, so `σ√T = 0`). -/
def gkAtExpiry : GKParams :=
  { S := 1.1, K := 1, T := 0, T2 := none, r_d := 0.05, r_f := 0.03, sigma := 0.2 }

/-! ### Digital option data (`types.ts`) -/

/-- `'domestic' | 'foreign'` payoff currency for cash-or-nothing digitals. -/
inductive PayoffCurrency where
  | domestic
  | foreign
deriving DecidableEq

/-- `DigitalOptionKind = 'cashOrNothing' | 'assetOrNothing'`. -/
inductive DigitalOptionKind where
  | cashOrNothing
  | assetOrNothing
deriving DecidableEq

/-- `DigitalParams extends GKParams` with payout `D` and the optional
`payoffCurrency` / `digitalKind` discriminators. -/
structure DigitalParams where
  S : ℝ
  K : ℝ
  T : ℝ
  T2 : Option ℝ := none
  r_d : ℝ
  r_f : ℝ
  sigma : ℝ
  D : ℝ
  payoffCurrency : Option PayoffCurrency := none
  digitalKind : Option DigitalOptionKind := none

/-- The `GKParams` view of a `DigitalParams` record (TypeScript passes the
record itself to `d1`/`d2` by structural subtyping). -/
def DigitalParams.toGK (p : DigitalParams) : GKParams :=
  ⟨p.S, p.K, p.T, p.T2, p.r_d, p.r_f, p.sigma⟩

/-! ### Digital engine (`digital/cashOrNothing.ts`) -/

/-- `discountTenor(params) = params.T2 ?? params.T`. -/
def discountTenor (p : DigitalParams) : ℝ := p.T2.getD p.T

/-- `priceCashOrNothingCallDomestic = D * discountDomestic(r_d, T2) * N(d2)`. -/
def priceCashOrNothingCallDomestic (p : DigitalParams) : ℝ :=
  p.D * discountDomestic p.r_d (discountTenor p) * normalCdf (d2 p.toGK)

/-- `priceCashOrNothingPutDomestic = D * discountDomestic(r_d, T2) * N(-d2)`. -/
def priceCashOrNothingPutDomestic (p : DigitalParams) : ℝ :=
  p.D * discountDomestic p.r_d (discountTenor p) * normalCdf (-d2 p.toGK)

/-- `priceCashOrNothingCallForeign = D * S * discountForeign(r_f, T) * N(d1)`. -/
def priceCashOrNothingCallForeign (p : DigitalParams) : ℝ :=
  p.D * p.S * discountForeign p.r_f p.T * normalCdf (d1 p.toGK)

/-- `priceCashOrNothingPutForeign = D * S * discountForeign(r_f, T) * N(-d1)`. -/
def priceCashOrNothingPutForeign (p : DigitalParams) : ℝ :=
  p.D * p.S * discountForeign p.r_f p.T * normalCdf (-d1 p.toGK)

/-- `priceDigitalCall`: dispatch on `payoffCurrency === 'foreign'`. -/
def priceDigitalCall (p : DigitalParams) : ℝ :=
  if p.payoffCurrency = some PayoffCurrency.foreign then
    priceCashOrNothingCallForeign p
  else priceCashOrNothingCallDomestic p

/-- `priceDigitalPut`: dispatch on `payoffCurrency === 'foreign'`. -/
def priceDigitalPut (p : DigitalParams) : ℝ :=
  if p.payoffCurrency = some PayoffCurrency.foreign then
    priceCashOrNothingPutForeign p
  else priceCashOrNothingPutDomestic p

/-- `priceAssetOrNothingCall = S * discountForeign(r_f, T) * N(d1)`. -/
def priceAssetOrNothingCall (p : DigitalParams) : ℝ :=
  p.S * discountForeign p.r_f p.T * normalCdf (d1 p.toGK)

/-- `priceAssetOrNothingPut = S * discountForeign(r_f, T) * N(-d1)`. -/
def priceAssetOrNothingPut (p : DigitalParams) : ℝ :=
  p.S * discountForeign p.r_f p.T * normalCdf (-d1 p.toGK)

/-- `priceDigital`: asset-or-nothing dispatch first, then cash-or-nothing. -/
def priceDigital (p : DigitalParams) (ot : OptionType) : ℝ :=
  if p.digitalKind = some DigitalOptionKind.assetOrNothing then
    match ot with
    | .call => priceAssetOrNothingCall p
    | .put => priceAssetOrNothingPut p
  else
    match ot with
    | .call => priceDigitalCall p
    | .put => priceDigitalPut p

/-! ### Digital Greeks (`digital/cashOrNothing.ts`) -/

/-- `deltaCashDomestic`: 0 when `σ√T = 0`, else
`±D*D_d(T2)*φ(d2)/(S*σ√T)` (sign per option kind). -/
def deltaCashDomestic (p : DigitalParams) (ot : OptionType) : ℝ :=
  if p.sigma * Real.sqrt p.T = 0 then 0
  else
    match ot with
    | .call => p.D * discountDomestic p.r_d (discountTenor p) * normalPdf (d2 p.toGK) /
        (p.S * (p.sigma * Real.sqrt p.T))
    | .put => -(p.D * discountDomestic p.r_d (discountTenor p) * normalPdf (d2 p.toGK) /
        (p.S * (p.sigma * Real.sqrt p.T)))

/-- `gammaCashDomestic`: 0 when `σ√T = 0` or `T = 0`, else
`∓D*D_d(T2)*φ(d2)*d1/(S²σ²T)`. -/
def gammaCashDomestic (p : DigitalParams) (ot : OptionType) : ℝ :=
  if p.sigma * Real.sqrt p.T = 0 ∨ p.T = 0 then 0
  else
    match ot with
    | .call => -(p.D * discountDomestic p.r_d (discountTenor p) * normalPdf (d2 p.toGK) *
        d1 p.toGK / (p.S * p.S * p.sigma * p.sigma * p.T))
    | .put => p.D * discountDomestic p.r_d (discountTenor p) * normalPdf (d2 p.toGK) *
        d1 p.toGK / (p.S * p.S * p.sigma * p.sigma * p.T)

/-- `vegaCashDomestic`: 0 when `σ = 0`, else `D*D_d(T2)*φ(d2)*(-d1/σ)`. -/
def vegaCashDomestic (p : DigitalParams) : ℝ :=
  if p.sigma = 0 then 0
  else p.D * discountDomestic p.r_d (discountTenor p) * normalPdf (d2 p.toGK) *
    (-d1 p.toGK / p.sigma)

/-- `thetaCashDomestic`: 0 when `√T = 0` or `T = 0`, else the analytic
`(term1 + term2)/365` from the source. -/
def thetaCashDomestic (p : DigitalParams) (ot : OptionType) : ℝ :=
  if Real.sqrt p.T = 0 ∨ p.T = 0 then 0
  else
    (-p.r_d * p.D * discountDomestic p.r_d (discountTenor p) *
        (match ot with
         | .call => normalCdf (d2 p.toGK)
         | .put => normalCdf (-d2 p.toGK)) +
      p.D * discountDomestic p.r_d (discountTenor p) * normalPdf (d2 p.toGK) *
        (match ot with
         | .call => (1 : ℝ)
         | .put => (-1 : ℝ)) *
        ((p.r_d - p.r_f - 0.5 * p.sigma * p.sigma) / (p.sigma * Real.sqrt p.T) -
          d2 p.toGK / (2 * p.T))) / 365

/-- `deltaCashForeign`: 0 when `σ√T = 0`, else
`D*D_f(T)*[N(d1) + φ(d1)/(σ√T)]` (call) or `D*D_f(T)*[N(-d1) - φ(d1)/(σ√T)]` (put). -/
def deltaCashForeign (p : DigitalParams) (ot : OptionType) : ℝ :=
  if p.sigma * Real.sqrt p.T = 0 then 0
  else
    match ot with
    | .call => p.D * discountForeign p.r_f p.T *
        (normalCdf (d1 p.toGK) + normalPdf (d1 p.toGK) / (p.sigma * Real.sqrt p.T))
    | .put => p.D * discountForeign p.r_f p.T *
        (normalCdf (-d1 p.toGK) - normalPdf (d1 p.toGK) / (p.sigma * Real.sqrt p.T))

/-- `vegaCashForeign`: 0 when `σ = 0`, else `D*S*D_f(T)*φ(d1)*(-d2/σ)`. -/
def vegaCashForeign (p : DigitalParams) : ℝ :=
  if p.sigma = 0 then 0
  else p.D * p.S * discountForeign p.r_f p.T * normalPdf (d1 p.toGK) *
    (-d2 p.toGK / p.sigma)

/-- `deltaAssetOrNothing`: `D_f(T)*N(d1)` (call) or `D_f(T)*(N(d1)-1)` (put). -/
def deltaAssetOrNothing (p : DigitalParams) (ot : OptionType) : ℝ :=
  match ot with
  | .call => discountForeign p.r_f p.T * normalCdf (d1 p.toGK)
  | .put => discountForeign p.r_f p.T * (normalCdf (d1 p.toGK) - 1)

/-- `gammaAssetOrNothing`: 0 when `σ√T = 0`, else `D_f(T)*φ(d1)/(S*σ√T)`. -/
def gammaAssetOrNothing (p : DigitalParams) : ℝ :=
  if p.sigma * Real.sqrt p.T = 0 then 0
  else discountForeign p.r_f p.T * normalPdf (d1 p.toGK) /
    (p.S * (p.sigma * Real.sqrt p.T))

/-- `vegaAssetOrNothing = S*D_f(T)*√T*φ(d1)`. -/
def vegaAssetOrNothing (p : DigitalParams) : ℝ :=
  p.S * discountForeign p.r_f p.T * Real.sqrt p.T * normalPdf (d1 p.toGK)

/-- `deltaDigital`: dispatch on digital kind, then payoff currency. -/
def deltaDigital (p : DigitalParams) (ot : OptionType) : ℝ :=
  if p.digitalKind = some DigitalOptionKind.assetOrNothing then
    deltaAssetOrNothing p ot
  else if p.payoffCurrency = some PayoffCurrency.foreign then
    deltaCashForeign p ot
  else deltaCashDomestic p ot

/-- `gammaDigital`: `undefined` (here `none`) for cash-or-nothing foreign
payoff; otherwise the raw gamma rescaled by `0.01*S`. -/
def gammaDigital (p : DigitalParams) (ot : OptionType) : Option ℝ :=
  if p.digitalKind = some DigitalOptionKind.assetOrNothing then
    some (gammaAssetOrNothing p * 0.01 * p.S)
  else if p.payoffCurrency = some PayoffCurrency.foreign then none
  else some (gammaCashDomestic p ot * 0.01 * p.S)

/-- `vegaDigital`: every branch of the source returns a number. -/
def vegaDigital (p : DigitalParams) : ℝ :=
  if p.digitalKind = some DigitalOptionKind.assetOrNothing then
    vegaAssetOrNothing p
  else if p.payoffCurrency = some PayoffCurrency.foreign then vegaCashForeign p
  else vegaCashDomestic p

/-- `thetaDigital`: `undefined` (`none`) for asset-or-nothing and for
cash-or-nothing foreign payoff; the domestic analytic theta otherwise. -/
def thetaDigital (p : DigitalParams) (ot : OptionType) : Option ℝ :=
  if p.digitalKind = some DigitalOptionKind.assetOrNothing then none
  else if p.payoffCurrency = some PayoffCurrency.foreign then none
  else some (thetaCashDomestic p ot)

/-- `DigitalResult`: `price` and `delta` are unconditionally assigned by
`priceAndGreeks`; `gamma`, `vega` and `theta` are set only when defined. -/
structure DigitalResult where
  price : ℝ
  delta : ℝ
  gamma : Option ℝ := none
  vega : Option ℝ := none
  theta : Option ℝ := none

namespace Digital

/-- The digital engine's `priceAndGreeks`: starts from `{price, delta}`
and adds each optional Greek only when it is not `undefined`. -/
def priceAndGreeks (p : DigitalParams) (ot : OptionType) : DigitalResult :=
  { price := priceDigital p ot
    delta := deltaDigital p ot
    gamma := gammaDigital p ot
    vega := some (vegaDigital p)
    theta := thetaDigital p ot }

end Digital

/-- Concrete cash-or-nothing foreign-payoff digital input. -/
def digitalForeign : DigitalParams :=
  { S := 1.1, K := 1, T := 0.25, T2 := some 0.3, r_d := 0.05, r_f := 0.03,
    sigma := 0.1, D := 1, payoffCurrency := some PayoffCurrency.foreign,
    digitalKind := some DigitalOptionKind.cashOrNothing }

/-- Concrete degenerate digital input: `T = 0` forces `d2 = 0`;
payout `D = 100`, zero rates, `T2 = 0`. -/
def digitalAtExpiry : DigitalParams :=
  { S := 1, K := 1, T := 0, T2 := some 0, r_d := 0, r_f := 0, sigma := 0,
    D := 100, payoffCurrency := some PayoffCurrency.domestic,
    digitalKind := some DigitalOptionKind.cashOrNothing }

/-- Concrete one-year at-the-money digital input with `d2 = -0.5 ≠ 0`. -/
def digitalOneYear : DigitalParams :=
  { S := 1, K := 1, T := 1, T2 := none, r_d := 0, r_f := 0, sigma := 1,
    D := 1, payoffCurrency := some PayoffCurrency.domestic,
    digitalKind := some DigitalOptionKind.cashOrNothing }

/-! ### American engine (`american/binomialTree.ts`) -/

/-- `'crr' | 'trinomial'` lattice selector. -/
inductive AmericanTreeType where
  | crr
  | trinomial
deriving DecidableEq

/-- `AmericanParams extends GKParams` with optional `steps` and `treeType`. -/
structure AmericanParams where
  S : ℝ
  K : ℝ
  T : ℝ
  T2 : Option ℝ := none
  r_d : ℝ
  r_f : ℝ
  sigma : ℝ
  steps : Option ℕ := none
  treeType : Option AmericanTreeType := none

/-- The `GKParams` view used when the European leg is priced. -/
def AmericanParams.toGK (p : AmericanParams) : GKParams :=
  ⟨p.S, p.K, p.T, p.T2, p.r_d, p.r_f, p.sigma⟩

/-- `EarlyExerciseBoundaryPoint { t; S }`. -/
structure EarlyExerciseBoundaryPoint where
  t : ℝ
  S : ℝ

/-- `AmericanResult`: price, premium, the numerical Greeks, and the
optional put boundary. -/
structure AmericanResult where
  price : ℝ
  earlyExercisePremium : ℝ
  delta : ℝ
  gamma : ℝ
  vega : ℝ
  theta : ℝ
  vanna : ℝ
  volga : ℝ
  timeDecayBump : ℝ
  rho_d : ℝ
  rho_f : ℝ
  earlyExerciseBoundary : Option (List EarlyExerciseBoundaryPoint) := none

/-- `const DEFAULT_STEPS = 200`. -/
def DEFAULT_STEPS : ℕ := 200

/-- `dt = T / steps`. -/
def amDt (p : AmericanParams) (steps : ℕ) : ℝ := p.T / steps

/-- The per-step discount `Math.exp(-r_d * dt)` shared by both lattices. -/
def amDisc (p : AmericanParams) (steps : ℕ) : ℝ := Real.exp (-p.r_d * amDt p steps)

/-- CRR `u = Math.exp(sigma * Math.sqrt(dt))`. -/
def crrU (p : AmericanParams) (steps : ℕ) : ℝ :=
  Real.exp (p.sigma * Real.sqrt (amDt p steps))

/-- CRR `d = 1 / u`. -/
def crrDn (p : AmericanParams) (steps : ℕ) : ℝ := 1 / crrU p steps

/-- CRR risk-neutral probability `q = (exp((r_d-r_f)dt) - d) / (u - d)`. -/
def crrQ (p : AmericanParams) (steps : ℕ) : ℝ :=
  (Real.exp ((p.r_d - p.r_f) * amDt p steps) - crrDn p steps) /
    (crrU p steps - crrDn p steps)

/-- CRR node spot `S * u^(n-i) * d^i` at slice `n`, node `i ∈ [0, n]`. -/
def crrSpot (p : AmericanParams) (steps n i : ℕ) : ℝ :=
  p.S * crrU p steps ^ (n - i) * crrDn p steps ^ i

/-- CRR backward induction for the American put: level `k` is slice
`steps - k` (`k = 0` is expiry); terminal payoff `max(K - spot, 0)`,
backward value `max(intrinsic, discount*(q*V_up + (1-q)*V_down))`. -/
def crrPutValue (p : AmericanParams) (steps : ℕ) : ℕ → ℕ → ℝ
  | 0, i => max (p.K - crrSpot p steps steps i) 0
  | k + 1, i =>
      max (max (p.K - crrSpot p steps (steps - (k + 1)) i) 0)
        (amDisc p steps * (crrQ p steps * crrPutValue p steps k i +
          (1 - crrQ p steps) * crrPutValue p steps k (i + 1)))

/-- The CRR hold value `discount*(q*prices[i] + (1-q)*prices[i+1])` fed by
level-`k` values. -/
def crrHold (p : AmericanParams) (steps k i : ℕ) : ℝ :=
  amDisc p steps * (crrQ p steps * crrPutValue p steps k i +
    (1 - crrQ p steps) * crrPutValue p steps k (i + 1))

/-- The CRR exercise test `intrinsic > hold` at slice `steps - (k+1)`. -/
def crrExercise (p : AmericanParams) (steps k i : ℕ) : Prop :=
  crrHold p steps k i < max (p.K - crrSpot p steps (steps - (k + 1)) i) 0

instance (p : AmericanParams) (steps k i : ℕ) : Decidable (crrExercise p steps k i) :=
  inferInstanceAs (Decidable (crrHold p steps k i <
    max (p.K - crrSpot p steps (steps - (k + 1)) i) 0))

/-- The `boundaryS === null` loop of `crrAmericanPut`: scanning
`i = 0, 1, ...` upward and keeping the FIRST index satisfying `P`. -/
def firstHit (P : ℕ → Bool) : ℕ → Option ℕ
  | 0 => none
  | m + 1 =>
      match firstHit P m with
      | some i => some i
      | none => if P m then some m else none

/-- The overwriting loop of `trinomialAmericanPut`: scanning upward and
keeping the LAST index satisfying `P`. -/
def lastHit (P : ℕ → Bool) : ℕ → Option ℕ
  | 0 => none
  | m + 1 => if P m then some m else lastHit P m

/-- The boundary spot recorded by `crrAmericanPut` for the slice at level
`k+1` (the source records the first exercising node, scanned from the
highest spot `i = 0` down). -/
def crrSliceBoundary (p : AmericanParams) (steps k : ℕ) : Option ℝ :=
  (firstHit (fun i => decide (crrExercise p steps k i)) (steps - k)).map
    fun i => crrSpot p steps (steps - (k + 1)) i

/-- The ordered CRR boundary list, slices pushed for `n = steps-1 .. 0`,
i.e. `k = 0 .. steps-1` with time-to-expiry `t = (k+1)*dt`. -/
def crrBoundary (p : AmericanParams) (steps : ℕ) : List EarlyExerciseBoundaryPoint :=
  (List.range steps).filterMap fun k =>
    (crrSliceBoundary p steps k).map fun s => ⟨((k + 1 : ℕ) : ℝ) * amDt p steps, s⟩

/-- `crrAmericanPut`: root price plus the boundary list (the source wraps
an empty list as `undefined`, modelled at result-assembly time). -/
def crrAmericanPut (p : AmericanParams) (steps : ℕ) :
    ℝ × List EarlyExerciseBoundaryPoint :=
  (crrPutValue p steps steps 0, crrBoundary p steps)

/-- CRR American call backward induction (`max(spot - K, hold)`; the
terminal payoff is floored at 0, backward steps are not). -/
def crrCallValue (p : AmericanParams) (steps : ℕ) : ℕ → ℕ → ℝ
  | 0, i => max (crrSpot p steps steps i - p.K) 0
  | k + 1, i =>
      max (crrSpot p steps (steps - (k + 1)) i - p.K)
        (amDisc p steps * (crrQ p steps * crrCallValue p steps k i +
          (1 - crrQ p steps) * crrCallValue p steps k (i + 1)))

/-- `crrAmericanCall` returns only the root price — no boundary. -/
def crrAmericanCall (p : AmericanParams) (steps : ℕ) : ℝ :=
  crrCallValue p steps steps 0

/-- Trinomial `u = Math.exp(sigma * Math.sqrt(2 * dt))`. -/
def trinU (sigma dt : ℝ) : ℝ := Real.exp (sigma * Real.sqrt (2 * dt))

/-- Trinomial first moment target `m = Math.exp((r_d - r_f) * dt)`. -/
def trinM (r_d r_f dt : ℝ) : ℝ := Real.exp ((r_d - r_f) * dt)

/-- Trinomial second moment target `v = m*m*Math.exp(sigma*sigma*dt)`. -/
def trinV (r_d r_f sigma dt : ℝ) : ℝ :=
  trinM r_d r_f dt * trinM r_d r_f dt * Real.exp (sigma * sigma * dt)

/-- `denom = A*D - B*C` with `A = u-1`, `B = d-1`, `C = u*u-1`,
`D = d*d-1` and `d = 1/u`. -/
def trinDenom (sigma dt : ℝ) : ℝ :=
  (trinU sigma dt - 1) * (1 / trinU sigma dt * (1 / trinU sigma dt) - 1) -
    (1 / trinU sigma dt - 1) * (trinU sigma dt * trinU sigma dt - 1)

/-- The unclamped `pu = ((m-1)*D - (v-1)*B) / denom`. -/
def trinPuRaw (r_d r_f sigma dt : ℝ) : ℝ :=
  ((trinM r_d r_f dt - 1) * (1 / trinU sigma dt * (1 / trinU sigma dt) - 1) -
    (trinV r_d r_f sigma dt - 1) * (1 / trinU sigma dt - 1)) / trinDenom sigma dt

/-- The unclamped `pd = ((v-1)*A - (m-1)*C) / denom`. -/
def trinPdRaw (r_d r_f sigma dt : ℝ) : ℝ :=
  ((trinV r_d r_f sigma dt - 1) * (trinU sigma dt - 1) -
    (trinM r_d r_f dt - 1) * (trinU sigma dt * trinU sigma dt - 1)) /
    trinDenom sigma dt

/-- The unclamped `pm = 1 - pu - pd`. -/
def trinPmRaw (r_d r_f sigma dt : ℝ) : ℝ :=
  1 - trinPuRaw r_d r_f sigma dt - trinPdRaw r_d r_f sigma dt

/-- `Math.max(0, Math.min(1, x))`. -/
def clamp01 (x : ℝ) : ℝ := max 0 (min 1 x)

/-- The record returned by `trinomialProbs`. -/
structure TrinomialProbs where
  pu : ℝ
  pm : ℝ
  pd : ℝ
  u : ℝ
  d : ℝ

/-- `trinomialProbs`: moment-matched probabilities, each clamped to
`[0,1]`, plus the up/down factors. -/
def trinomialProbs (r_d r_f sigma dt : ℝ) : TrinomialProbs :=
  ⟨clamp01 (trinPuRaw r_d r_f sigma dt), clamp01 (trinPmRaw r_d r_f sigma dt),
    clamp01 (trinPdRaw r_d r_f sigma dt), trinU sigma dt, 1 / trinU sigma dt⟩

/-- The trinomial probabilities/factors at a pricing call's parameters. -/
def trinProbsOf (p : AmericanParams) (steps : ℕ) : TrinomialProbs :=
  trinomialProbs p.r_d p.r_f p.sigma (amDt p steps)

/-- Trinomial node spot `S * u^max(0,j) * d^max(0,-j)` with `j = i - n`
(natural subtraction realises the two `max(0, ·)`). -/
def trinSpot (p : AmericanParams) (steps n i : ℕ) : ℝ :=
  p.S * (trinProbsOf p steps).u ^ (i - n) * (trinProbsOf p steps).d ^ (n - i)

/-- Trinomial backward induction for the American put: slice `n` has
`2n+1` nodes; hold mixes `prices[i]`, `prices[i+1]`, `prices[i+2]` of the
wider previous slice. -/
def trinPutValue (p : AmericanParams) (steps : ℕ) : ℕ → ℕ → ℝ
  | 0, i => max (p.K - trinSpot p steps steps i) 0
  | k + 1, i =>
      max (max (p.K - trinSpot p steps (steps - (k + 1)) i) 0)
        (amDisc p steps * ((trinProbsOf p steps).pu * trinPutValue p steps k i +
          (trinProbsOf p steps).pm * trinPutValue p steps k (i + 1) +
          (trinProbsOf p steps).pd * trinPutValue p steps k (i + 2)))

/-- The trinomial hold value at level `k`, node `i`. -/
def trinHold (p : AmericanParams) (steps k i : ℕ) : ℝ :=
  amDisc p steps * ((trinProbsOf p steps).pu * trinPutValue p steps k i +
    (trinProbsOf p steps).pm * trinPutValue p steps k (i + 1) +
    (trinProbsOf p steps).pd * trinPutValue p steps k (i + 2))

/-- The trinomial exercise test `intrinsic > hold`. -/
def trinExercise (p : AmericanParams) (steps k i : ℕ) : Prop :=
  trinHold p steps k i < max (p.K - trinSpot p steps (steps - (k + 1)) i) 0

instance (p : AmericanParams) (steps k i : ℕ) : Decidable (trinExercise p steps k i) :=
  inferInstanceAs (Decidable (trinHold p steps k i <
    max (p.K - trinSpot p steps (steps - (k + 1)) i) 0))

/-- The boundary spot recorded by `trinomialAmericanPut` (the source
overwrites on every exercising node, scanned from the lowest spot up, so
it keeps the last — highest-spot — one). -/
def trinSliceBoundary (p : AmericanParams) (steps k : ℕ) : Option ℝ :=
  (lastHit (fun i => decide (trinExercise p steps k i))
      (2 * (steps - (k + 1)) + 1)).map
    fun i => trinSpot p steps (steps - (k + 1)) i

/-- The ordered trinomial boundary list, `t = (k+1)*dt` as in the CRR case. -/
def trinBoundary (p : AmericanParams) (steps : ℕ) : List EarlyExerciseBoundaryPoint :=
  (List.range steps).filterMap fun k =>
    (trinSliceBoundary p steps k).map fun s => ⟨((k + 1 : ℕ) : ℝ) * amDt p steps, s⟩

/-- `trinomialAmericanPut`: root price plus the boundary list. -/
def trinomialAmericanPut (p : AmericanParams) (steps : ℕ) :
    ℝ × List EarlyExerciseBoundaryPoint :=
  (trinPutValue p steps steps 0, trinBoundary p steps)

/-- Trinomial American call backward induction (`max(spot - K, hold)`). -/
def trinCallValue (p : AmericanParams) (steps : ℕ) : ℕ → ℕ → ℝ
  | 0, i => max (trinSpot p steps steps i - p.K) 0
  | k + 1, i =>
      max (trinSpot p steps (steps - (k + 1)) i - p.K)
        (amDisc p steps * ((trinProbsOf p steps).pu * trinCallValue p steps k i +
          (trinProbsOf p steps).pm * trinCallValue p steps k (i + 1) +
          (trinProbsOf p steps).pd * trinCallValue p steps k (i + 2)))

/-- `trinomialAmericanCall` returns only the root price — no boundary. -/
def trinomialAmericanCall (p : AmericanParams) (steps : ℕ) : ℝ :=
  trinCallValue p steps steps 0

/-- `americanPutPrice`: tree-type dispatch (`'trinomial'` vs CRR). -/
def americanPutPriceRaw (p : AmericanParams) (steps : ℕ) :
    ℝ × List EarlyExerciseBoundaryPoint :=
  if p.treeType = some AmericanTreeType.trinomial then trinomialAmericanPut p steps
  else crrAmericanPut p steps

/-- `americanCallPrice`: tree-type dispatch. -/
def americanCallPriceRaw (p : AmericanParams) (steps : ℕ) : ℝ :=
  if p.treeType = some AmericanTreeType.trinomial then trinomialAmericanCall p steps
  else crrAmericanCall p steps

/-- `const BUMP_S_PCT = 0.00001`. -/
def BUMP_S_PCT : ℝ := 0.00001

/-- `const BUMP_SIGMA = 0.0001`. -/
def BUMP_SIGMA : ℝ := 0.0001

/-- The recurring `optionType === 'call' ? callRaw(p) : putRaw(p).price`
dispatch of the numerical-Greek helpers. -/
def amPrice (p : AmericanParams) (ot : OptionType) (steps : ℕ) : ℝ :=
  match ot with
  | .call => americanCallPriceRaw p steps
  | .put => (americanPutPriceRaw p steps).1

/-- `deltaNumerical`: central difference on the relative spot bump. -/
def deltaNumerical (p : AmericanParams) (ot : OptionType) (steps : ℕ) : ℝ :=
  (amPrice { p with S := p.S + p.S * BUMP_S_PCT } ot steps -
    amPrice { p with S := p.S - p.S * BUMP_S_PCT } ot steps) /
    (2 * (p.S * BUMP_S_PCT))

/-- `gammaNumerical`: second central difference, rescaled by `0.01*S`. -/
def gammaNumerical (p : AmericanParams) (ot : OptionType) (steps : ℕ) : ℝ :=
  (amPrice { p with S := p.S + p.S * BUMP_S_PCT } ot steps -
      2 * amPrice p ot steps +
      amPrice { p with S := p.S - p.S * BUMP_S_PCT } ot steps) /
    (p.S * BUMP_S_PCT * (p.S * BUMP_S_PCT)) * 0.01 * p.S

/-- `vegaNumerical`: forward difference on a 1bp vol bump, per 1% vol. -/
def vegaNumerical (p : AmericanParams) (ot : OptionType) (steps : ℕ) : ℝ :=
  (amPrice { p with sigma := p.sigma + BUMP_SIGMA } ot steps -
    amPrice p ot steps) / BUMP_SIGMA / 100

/-- `thetaNumerical`: forward difference on `T` shifted by one day, step
count rescaled with `Math.max(2, Math.round(...))`. -/
def thetaNumerical (p : AmericanParams) (ot : OptionType) (steps : ℕ) : ℝ :=
  (amPrice { p with T := max 1e-6 (p.T - 1 / 365) } ot
      (max 2 (round (max 1e-6 (p.T - 1 / 365) / p.T * steps)).toNat) -
    amPrice p ot steps) / 1

/-- `vannaNumerical`: mixed central difference, per 1% vol. -/
def vannaNumerical (p : AmericanParams) (ot : OptionType) (steps : ℕ) : ℝ :=
  (amPrice { p with S := p.S + p.S * BUMP_S_PCT, sigma := p.sigma + BUMP_SIGMA } ot steps -
      amPrice { p with S := p.S - p.S * BUMP_S_PCT, sigma := p.sigma + BUMP_SIGMA } ot steps -
      amPrice { p with S := p.S + p.S * BUMP_S_PCT, sigma := max (p.sigma - BUMP_SIGMA) 1e-6 } ot steps +
      amPrice { p with S := p.S - p.S * BUMP_S_PCT, sigma := max (p.sigma - BUMP_SIGMA) 1e-6 } ot steps) /
    (4 * (p.S * BUMP_S_PCT) * BUMP_SIGMA) / 100

/-- `volgaNumerical`: second difference in vol, per 1% vol. -/
def volgaNumerical (p : AmericanParams) (ot : OptionType) (steps : ℕ) : ℝ :=
  (amPrice { p with sigma := p.sigma + BUMP_SIGMA } ot steps -
      2 * amPrice p ot steps +
      amPrice { p with sigma := max (p.sigma - BUMP_SIGMA) 1e-6 } ot steps) /
    (BUMP_SIGMA * BUMP_SIGMA) / 100

/-- `timeDecayBumpNumerical`: central one-day bump with rescaled steps. -/
def timeDecayBumpNumerical (p : AmericanParams) (ot : OptionType) (steps : ℕ) : ℝ :=
  (amPrice { p with T := max 1e-6 (p.T - 1 / 365) } ot
      (max 2 (round (max 1e-6 (p.T - 1 / 365) / p.T * steps)).toNat) -
    amPrice { p with T := p.T + 1 / 365 } ot
      (max 2 (round ((p.T + 1 / 365) / p.T * steps)).toNat)) / 2

/-- `rhoDNumerical`: forward difference on a 1% domestic-rate bump. -/
def rhoDNumerical (p : AmericanParams) (ot : OptionType) (steps : ℕ) : ℝ :=
  (amPrice { p with r_d := p.r_d + 0.01 } ot steps - amPrice p ot steps) / 0.01 / 100

/-- `rhoFNumerical`: forward difference on a 1% foreign-rate bump. -/
def rhoFNumerical (p : AmericanParams) (ot : OptionType) (steps : ℕ) : ℝ :=
  (amPrice { p with r_f := p.r_f + 0.01 } ot steps - amPrice p ot steps) / 0.01 / 100

/-- `priceAmericanPut`: price, premium over the European put, the numerical
Greeks, and the boundary (set only when the recorded list is non-empty). -/
def priceAmericanPut (p : AmericanParams) : AmericanResult :=
  { price := (americanPutPriceRaw p (p.steps.getD DEFAULT_STEPS)).1
    earlyExercisePremium := (americanPutPriceRaw p (p.steps.getD DEFAULT_STEPS)).1 -
      Vanilla.pricePut p.toGK
    delta := deltaNumerical p OptionType.put (p.steps.getD DEFAULT_STEPS)
    gamma := gammaNumerical p OptionType.put (p.steps.getD DEFAULT_STEPS)
    vega := vegaNumerical p OptionType.put (p.steps.getD DEFAULT_STEPS)
    theta := thetaNumerical p OptionType.put (p.steps.getD DEFAULT_STEPS)
    vanna := vannaNumerical p OptionType.put (p.steps.getD DEFAULT_STEPS)
    volga := volgaNumerical p OptionType.put (p.steps.getD DEFAULT_STEPS)
    timeDecayBump := timeDecayBumpNumerical p OptionType.put (p.steps.getD DEFAULT_STEPS)
    rho_d := rhoDNumerical p OptionType.put (p.steps.getD DEFAULT_STEPS)
    rho_f := rhoFNumerical p OptionType.put (p.steps.getD DEFAULT_STEPS)
    earlyExerciseBoundary :=
      if (americanPutPriceRaw p (p.steps.getD DEFAULT_STEPS)).2.isEmpty then none
      else some (americanPutPriceRaw p (p.steps.getD DEFAULT_STEPS)).2 }

/-- `priceAmericanCall`: assembled without ever setting
`earlyExerciseBoundary` (the call lattices return a bare price). -/
def priceAmericanCall (p : AmericanParams) : AmericanResult :=
  { price := americanCallPriceRaw p (p.steps.getD DEFAULT_STEPS)
    earlyExercisePremium := americanCallPriceRaw p (p.steps.getD DEFAULT_STEPS) -
      Vanilla.priceCall p.toGK
    delta := deltaNumerical p OptionType.call (p.steps.getD DEFAULT_STEPS)
    gamma := gammaNumerical p OptionType.call (p.steps.getD DEFAULT_STEPS)
    vega := vegaNumerical p OptionType.call (p.steps.getD DEFAULT_STEPS)
    theta := thetaNumerical p OptionType.call (p.steps.getD DEFAULT_STEPS)
    vanna := vannaNumerical p OptionType.call (p.steps.getD DEFAULT_STEPS)
    volga := volgaNumerical p OptionType.call (p.steps.getD DEFAULT_STEPS)
    timeDecayBump := timeDecayBumpNumerical p OptionType.call (p.steps.getD DEFAULT_STEPS)
    rho_d := rhoDNumerical p OptionType.call (p.steps.getD DEFAULT_STEPS)
    rho_f := rhoFNumerical p OptionType.call (p.steps.getD DEFAULT_STEPS)
    earlyExerciseBoundary := none }

/-- `priceAmerican`: option-kind dispatch. -/
def priceAmerican (p : AmericanParams) (ot : OptionType) : AmericanResult :=
  match ot with
  | .call => priceAmericanCall p
  | .put => priceAmericanPut p

/-- Concrete American-pricing input (used with a small 3-step lattice). -/
def americanSample : AmericanParams :=
  { S := 100, K := 100, T := 0.25, T2 := none, r_d := 0.05, r_f := 0.02,
    sigma := 0.2, steps := some 3, treeType := none }

/-! ### Asian engine (`asian/asianPricing.ts`) -/

/-- `avgType` of `AsianParams`. -/
inductive AvgType where
  | arithmetic
  | geometric
deriving DecidableEq

/-- `AsianParams extends GKParams` with the average type and the number of
averaging fixings. -/
structure AsianParams where
  S : ℝ
  K : ℝ
  T : ℝ
  T2 : Option ℝ := none
  r_d : ℝ
  r_f : ℝ
  sigma : ℝ
  avgType : AvgType
  observationCount : ℕ

/-- The Monte-Carlo `AsianResult`: `priceAsianMC` always reports all
three fields. -/
structure AsianResult where
  price : ℝ
  standardError : ℝ
  confidenceInterval : ℝ × ℝ

/-- The simulated spot after `i` steps of the loop
`S = S * Math.exp(drift + vol * randomNormal())`, with the draws made
explicit as a stream `zs` (`zs (i+1)` is the draw of step `i+1`). -/
def pathSpot (S0 drift vol : ℝ) (zs : ℕ → ℝ) : ℕ → ℝ
  | 0 => S0
  | i + 1 => pathSpot S0 drift vol zs i * Real.exp (drift + vol * zs (i + 1))

/-- `pathArithmeticAvg`: the loop accumulates `sum = S0; sum += S_i` for
`i = 1..N` and divides by `N + 1`. -/
def pathArithmeticAvg (S0 r_d r_f sigma T : ℝ) (N : ℕ) (zs : ℕ → ℝ) : ℝ :=
  (∑ i ∈ Finset.range (N + 1),
      pathSpot S0 ((r_d - r_f - 0.5 * sigma * sigma) * (T / N))
        (sigma * Real.sqrt (T / N)) zs i) / (N + 1)

/-- `pathGeometricAvg`: `logSum = log S0; logSum += log S_i`, then
`exp(logSum / (N+1))`. -/
def pathGeometricAvg (S0 r_d r_f sigma T : ℝ) (N : ℕ) (zs : ℕ → ℝ) : ℝ :=
  Real.exp ((∑ i ∈ Finset.range (N + 1),
      Real.log (pathSpot S0 ((r_d - r_f - 0.5 * sigma * sigma) * (T / N))
        (sigma * Real.sqrt (T / N)) zs i)) / (N + 1))

/-- The loop body of `priceAsianMC`: pick the path average by `avgType`,
then the (undiscounted) payoff by option kind. -/
def asianPayoff (p : AsianParams) (ot : OptionType) (N : ℕ) (zs : ℕ → ℝ) : ℝ :=
  match ot with
  | .call =>
      max ((match p.avgType with
        | .geometric => pathGeometricAvg p.S p.r_d p.r_f p.sigma p.T N zs
        | .arithmetic => pathArithmeticAvg p.S p.r_d p.r_f p.sigma p.T N zs) - p.K) 0
  | .put =>
      max (p.K - (match p.avgType with
        | .geometric => pathGeometricAvg p.S p.r_d p.r_f p.sigma p.T N zs
        | .arithmetic => pathArithmeticAvg p.S p.r_d p.r_f p.sigma p.T N zs)) 0

/-- `priceAsianMC` with the per-path draw streams `draws` made explicit
(`draws j` is path `j`'s stream): `N = max(1, observationCount)`, sample
mean discounted by `D_d(T)`, unbiased sample variance over `numPaths - 1`,
`SE = D_d*sqrt(variance/numPaths)`, 95% CI with `z = 1.96`. -/
def priceAsianMC (p : AsianParams) (ot : OptionType) (numPaths : ℕ)
    (draws : ℕ → ℕ → ℝ) : AsianResult :=
  let N := max 1 p.observationCount
  let D_d := discountDomestic p.r_d p.T
  let mean := (∑ j ∈ Finset.range numPaths, asianPayoff p ot N (draws j)) / numPaths
  let price := D_d * mean
  let variance := (∑ j ∈ Finset.range numPaths,
    (asianPayoff p ot N (draws j) - mean) ^ 2) / ((numPaths : ℝ) - 1)
  let standardError := D_d * Real.sqrt (variance / numPaths)
  ⟨price, standardError,
    (price - 1.96 * standardError, price + 1.96 * standardError)⟩

/-- Written from the claim's words (refinement target for C7): the `i`-th
observation of a simulated path in closed form,
`S·exp(i·(r_d−r_f−σ²/2)Δt + σ√Δt·(z_1+...+z_i))` with
`Δt = T/observationCount`; observation 0 is the initial spot. -/
def specAsianSpot (p : AsianParams) (zs : ℕ → ℝ) (i : ℕ) : ℝ :=
  p.S * Real.exp ((i : ℝ) * ((p.r_d - p.r_f - p.sigma ^ 2 / 2) *
      (p.T / p.observationCount)) +
    p.sigma * Real.sqrt (p.T / p.observationCount) *
      ∑ j ∈ Finset.range i, zs (j + 1))

/-- Written from the claim's words: the simple mean of the
`observationCount + 1` observations (the initial spot included). -/
def specAsianAvg (p : AsianParams) (zs : ℕ → ℝ) : ℝ :=
  (∑ i ∈ Finset.range (p.observationCount + 1), specAsianSpot p zs i) /
    (p.observationCount + 1)

/-- Written from the claim's words: the geometric mean of the
`observationCount + 1` observations. -/
def specAsianGeoAvg (p : AsianParams) (zs : ℕ → ℝ) : ℝ :=
  Real.exp ((∑ i ∈ Finset.range (p.observationCount + 1),
      Real.log (specAsianSpot p zs i)) / (p.observationCount + 1))

/-- Written from the claim's words: the per-path payoff `max(avg−K, 0)`
(call) or `max(K−avg, 0)` (put) on the path average. -/
def specAsianPayoff (p : AsianParams) (ot : OptionType) (zs : ℕ → ℝ) : ℝ :=
  match ot with
  | .call =>
      max ((match p.avgType with
        | .geometric => specAsianGeoAvg p zs
        | .arithmetic => specAsianAvg p zs) - p.K) 0
  | .put =>
      max (p.K - (match p.avgType with
        | .geometric => specAsianGeoAvg p zs
        | .arithmetic => specAsianAvg p zs)) 0

/-- Concrete Asian input with two fixings. -/
def asianSample : AsianParams :=
  { S := 1, K := 1, T := 1, T2 := none, r_d := 0.02, r_f := 0.01,
    sigma := 0.2, avgType := AvgType.arithmetic, observationCount := 2 }

/-! ### Combination composer (risk reversal) -/

/-- `'long' | 'short'` direction of a risk reversal. -/
inductive LongOrShort where
  | long
  | short
deriving DecidableEq

/-- `CombinationSharedParams`: spot, tenors and rates shared by all legs. -/
structure CombinationSharedParams where
  S : ℝ
  T : ℝ
  T2 : Option ℝ := none
  r_d : ℝ
  r_f : ℝ

/-- `RRParams`: direction plus per-leg strike/volatility. -/
structure RRParams where
  direction : LongOrShort
  strikeCall : ℝ
  strikePut : ℝ
  sigmaCall : ℝ
  sigmaPut : ℝ

/-- One entry of the optional `legs` breakdown: label plus the
coefficient-scaled price/Greeks retained per leg. -/
structure CombinationLeg where
  label : String
  price : ℝ
  delta : ℝ
  gamma : ℝ
  vega : ℝ
  theta : ℝ
  rho_d : ℝ
  rho_f : ℝ

/-- `CombinationResult`: netted price/Greeks plus the optional `legs`. -/
structure CombinationResult where
  price : ℝ
  delta : ℝ
  gamma : ℝ
  vega : ℝ
  theta : ℝ
  timeDecayBump : ℝ
  rho_d : ℝ
  rho_f : ℝ
  legs : Option (List CombinationLeg) := none

/-- `buildGKParams(shared, K, sigma)`. -/
def buildGKParams (shared : CombinationSharedParams) (K sigma : ℝ) : GKParams :=
  ⟨shared.S, K, shared.T, shared.T2, shared.r_d, shared.r_f, sigma⟩

/-- `addLeg`: accumulate `coef ×` each leg component into the running
result; when `withLegs` and the breakdown list exists, also push the
coefficient-scaled leg record. (`timeDecayBump ?? 0` and `gamma ?? 0`
collapse since the vanilla engine always assigns those fields.) -/
def addLeg (acc : CombinationResult) (coef : ℝ) (leg : VanillaResult)
    (label : String) (withLegs : Bool) : CombinationResult :=
  { price := acc.price + coef * leg.price
    delta := acc.delta + coef * leg.delta
    gamma := acc.gamma + coef * leg.gamma
    vega := acc.vega + coef * leg.vega
    theta := acc.theta + coef * leg.theta
    timeDecayBump := acc.timeDecayBump + coef * leg.timeDecayBump
    rho_d := acc.rho_d + coef * leg.rho_d
    rho_f := acc.rho_f + coef * leg.rho_f
    legs := if withLegs then
        acc.legs.map (fun ls => ls ++ [⟨label, coef * leg.price, coef * leg.delta,
          coef * leg.gamma, coef * leg.vega, coef * leg.theta, coef * leg.rho_d,
          coef * leg.rho_f⟩])
      else acc.legs }

/-- The zero-initialised accumulator of `priceRR`, with `legs := []`
exactly when the caller requested the per-leg breakdown. -/
def emptyCombination (withLegs : Bool) : CombinationResult :=
  ⟨0, 0, 0, 0, 0, 0, 0, 0, if withLegs then some [] else none⟩

/-- The `legCall` local of `priceRR`: the call leg priced by the vanilla
engine at `(strikeCall, sigmaCall)`. -/
def rrLegCall (shared : CombinationSharedParams) (rr : RRParams) : VanillaResult :=
  Vanilla.priceAndGreeks (buildGKParams shared rr.strikeCall rr.sigmaCall) OptionType.call

/-- The `legPut` local of `priceRR`: the put leg priced by the vanilla
engine at `(strikePut, sigmaPut)`. -/
def rrLegPut (shared : CombinationSharedParams) (rr : RRParams) : VanillaResult :=
  Vanilla.priceAndGreeks (buildGKParams shared rr.strikePut rr.sigmaPut) OptionType.put

/-- `priceRR`: long adds `+Call` then `-Put`; short adds `-Call` then
`+Put` (the call leg is always added first). `withLegs` is the caller's
`options?.withLegs ?? false`. -/
def priceRR (shared : CombinationSharedParams) (rr : RRParams)
    (withLegs : Bool) : CombinationResult :=
  match rr.direction with
  | .long =>
      addLeg (addLeg (emptyCombination withLegs) 1 (rrLegCall shared rr)
        "Call(K_call)" withLegs) (-1) (rrLegPut shared rr) "Put(K_put)" withLegs
  | .short =>
      addLeg (addLeg (emptyCombination withLegs) (-1) (rrLegCall shared rr)
        "Call(K_call)" withLegs) 1 (rrLegPut shared rr) "Put(K_put)" withLegs

end FxCalc

/-! ## Theorems -/

namespace FxCalc

/-- Helper: rational lower bound on `SQRT_2PI`, from `Real.pi_gt_d20`. -/
lemma sqrt_two_pi_lb : (2.506628274 : ℝ) ≤ SQRT_2PI := by
  have h : ((2.506628274 : ℝ)) ^ 2 ≤ 2 * Real.pi := by
    nlinarith [Real.pi_gt_d20]
  calc (2.506628274 : ℝ) = Real.sqrt ((2.506628274 : ℝ) ^ 2) := by
        rw [Real.sqrt_sq (by norm_num)]
    _ ≤ SQRT_2PI := Real.sqrt_le_sqrt h

/-- Helper: rational upper bound on `SQRT_2PI`, from `Real.pi_lt_d20`. -/
lemma sqrt_two_pi_ub : SQRT_2PI ≤ (2.5066282747 : ℝ) := by
  have h : 2 * Real.pi ≤ ((2.5066282747 : ℝ)) ^ 2 := by
    nlinarith [Real.pi_lt_d20]
  calc SQRT_2PI ≤ Real.sqrt ((2.5066282747 : ℝ) ^ 2) := Real.sqrt_le_sqrt h
    _ = (2.5066282747 : ℝ) := Real.sqrt_sq (by norm_num)

/-- Helper: `SQRT_2PI` is positive. -/
lemma sqrt_two_pi_pos : (0 : ℝ) < SQRT_2PI :=
  lt_of_lt_of_le (by norm_num) sqrt_two_pi_lb

/-- Helper: closed form of `normalCdf 0` in terms of `SQRT_2PI`. -/
lemma normalCdf_zero_eq : normalCdf 0 = 1 - 1.253314136 / SQRT_2PI := by
  rw [normalCdf, if_neg (by norm_num), if_neg (by norm_num), if_pos le_rfl]
  have h1 : normalPdf 0 = 1 / SQRT_2PI := by
    rw [normalPdf]; norm_num
  have h2 : asPoly (1 / (1 + 0.2316419 * |(0 : ℝ)|)) = 1.253314136 := by
    rw [abs_zero]; norm_num [asPoly]
  rw [h1, h2]; ring

/-- Helper: the A&S `normalPdf` is even. -/
lemma normalPdf_neg (x : ℝ) : normalPdf (-x) = normalPdf x := by
  unfold normalPdf
  congr 1
  congr 1
  ring

/-- Helper: the put-call complement of `normalCdf` away from 0. -/
lemma normalCdf_add_neg (x : ℝ) (hx : x ≠ 0) :
    normalCdf x + normalCdf (-x) = 1 := by
  rcases le_or_lt 6 x with h6 | h6
  · rw [normalCdf, if_pos h6, normalCdf, if_neg (by linarith), if_pos (by linarith)]
    norm_num
  rcases le_or_lt x (-6) with h6' | h6'
  · rw [normalCdf, if_neg (by linarith), if_pos h6', normalCdf,
      if_pos (by linarith)]
    norm_num
  rcases lt_or_gt_of_ne hx with hneg | hpos
  · rw [normalCdf, if_neg (by linarith), if_neg (by linarith), if_neg (by linarith),
      normalCdf, if_neg (by linarith), if_neg (by linarith), if_pos (by linarith),
      normalPdf_neg, abs_neg]
    ring
  · rw [normalCdf, if_neg (by linarith), if_neg (by linarith), if_pos (by linarith),
      normalCdf, if_neg (by linarith), if_neg (by linarith), if_neg (by linarith),
      normalPdf_neg, abs_neg]
    ring

/-- Helper: `d1` agrees everywhere with the guard-free formula (Lean's
division by zero makes the `σ√T = 0` branch coincide). -/
lemma d1_eq_formula (p : GKParams) :
    d1 p = (Real.log (p.S / p.K) + (p.r_d - p.r_f + p.sigma ^ 2 / 2) * p.T) /
      (p.sigma * Real.sqrt p.T) := by
  by_cases h : p.sigma * Real.sqrt p.T = 0
  · rw [d1, if_pos h, h, div_zero]
  · rw [d1, if_neg h]
    congr 1
    ring

/-- C3: the vanilla engine's call and put prices equal the claimed
Garman-Kohlhagen formulas, with `d1`/`d2` computed from the expiry tenor
`T` only and discounting from `T2 ?? T`. -/
theorem garmanKohlhagen_price_formula (p : GKParams) :
    Vanilla.priceCall p = specVanillaCall p ∧ Vanilla.pricePut p = specVanillaPut p := by
  constructor
  · rw [Vanilla.priceCall, specVanillaCall, Vanilla.discountT, discountForeign,
      discountDomestic, d2, d1_eq_formula]
  · rw [Vanilla.pricePut, specVanillaPut, Vanilla.discountT, discountForeign,
      discountDomestic, d2, d1_eq_formula]

/-- C4: when `σ√T = 0`, `d1` and `d2` are 0 and the ratio-based vanilla
Greeks gamma, vanna, volga and theta all return exactly 0. -/
theorem degenerate_greeks_zero (p : GKParams)
    (h : p.sigma * Real.sqrt p.T = 0) :
    d1 p = 0 ∧ d2 p = 0 ∧ Vanilla.gamma p = 0 ∧ Vanilla.vanna p = 0 ∧
      Vanilla.volga p = 0 ∧ ∀ ot, Vanilla.theta p ot = 0 := by
  have hd1 : d1 p = 0 := by rw [d1, if_pos h]
  have hd2 : d2 p = 0 := by rw [d2, hd1, h, sub_zero]
  refine ⟨hd1, hd2, ?_, ?_, ?_, ?_⟩
  · rw [Vanilla.gamma, if_pos h]
  · by_cases hs : p.sigma = 0
    · rw [Vanilla.vanna, if_pos hs]
    · have hT : Real.sqrt p.T = 0 := by
        rcases mul_eq_zero.mp h with h1 | h1
        · exact absurd h1 hs
        · exact h1
      rw [Vanilla.vanna, if_neg hs, hT]
      ring
  · by_cases hs : p.sigma = 0
    · rw [Vanilla.volga, if_pos hs]
    · have hT : Real.sqrt p.T = 0 := by
        rcases mul_eq_zero.mp h with h1 | h1
        · exact absurd h1 hs
        · exact h1
      have hv : Vanilla.vega p = 0 := by rw [Vanilla.vega, hT]; ring
      rw [Vanilla.volga, if_neg hs, hv]
      ring
  · intro ot
    rw [Vanilla.theta.eq_def, if_pos h]

/-- C4 witness: the degenerate Greeks at the concrete at-expiry input. -/
theorem degenerate_greeks_zero_witness :
    gkAtExpiry.sigma * Real.sqrt gkAtExpiry.T = 0 ∧
      (d1 gkAtExpiry = 0 ∧ d2 gkAtExpiry = 0 ∧ Vanilla.gamma gkAtExpiry = 0 ∧
        Vanilla.vanna gkAtExpiry = 0 ∧ Vanilla.volga gkAtExpiry = 0 ∧
        ∀ ot, Vanilla.theta gkAtExpiry ot = 0) := by
  have h : gkAtExpiry.sigma * Real.sqrt gkAtExpiry.T = 0 := by
    norm_num [gkAtExpiry, Real.sqrt_zero]
  exact ⟨h, degenerate_greeks_zero gkAtExpiry h⟩

/-- C2 counterexample: `normalCdf 0` is NOT `0.5` — the Abramowitz-Stegun
approximation evaluates at 0 to `1 - 1.253314136/√(2π) ≈ 0.5000000005`. -/
theorem normalCdf_zero_ne_half : normalCdf 0 ≠ 0.5 := by
  rw [normalCdf_zero_eq]
  intro h
  have hs := sqrt_two_pi_lb
  have hpos := sqrt_two_pi_pos
  have hdiv : (1.253314136 : ℝ) / SQRT_2PI = 0.5 := by linarith
  have hval : (1.253314136 : ℝ) = 0.5 * SQRT_2PI := by
    field_simp at hdiv
    linarith
  linarith

/-- C2 amended: the symmetry `normalCdf x + normalCdf (-x) = 1` holds for
every `x ≠ 0`; at 0 the approximation gives a value strictly between `0.5`
and `0.5 + 1e-8` (so close to, but not equal to, `0.5`). -/
theorem normalCdf_symmetry_amended :
    (∀ x : ℝ, x ≠ 0 → normalCdf x + normalCdf (-x) = 1) ∧
      0.5 < normalCdf 0 ∧ normalCdf 0 < 0.5 + 1e-8 := by
  refine ⟨normalCdf_add_neg, ?_, ?_⟩
  · rw [normalCdf_zero_eq]
    have hpos := sqrt_two_pi_pos
    have h1 : (1.253314136 : ℝ) / SQRT_2PI ≤ 1.253314136 / 2.506628274 := by
      rw [div_le_div_iff hpos (by norm_num)]
      nlinarith [sqrt_two_pi_lb]
    have h2 : (1.253314136 : ℝ) / 2.506628274 < 0.5 := by norm_num
    linarith
  · rw [normalCdf_zero_eq]
    have hub := sqrt_two_pi_ub
    have hpos := sqrt_two_pi_pos
    have h1 : (1.253314136 : ℝ) / 2.5066282747 ≤ 1.253314136 / SQRT_2PI := by
      rw [div_le_div_iff (by norm_num) hpos]
      nlinarith [sqrt_two_pi_ub]
    have h2 : (0.5 : ℝ) - 1e-8 < 1.253314136 / 2.5066282747 := by norm_num
    linarith

/-- C2 witness: the amended symmetry at the concrete input `x = 1`. -/
theorem normalCdf_symmetry_amended_witness :
    normalCdf 1 + normalCdf (-1) = 1 :=
  normalCdf_symmetry_amended.1 1 (by norm_num)

/-- C1 counterexample: at the degenerate input `digitalAtExpiry`
(`T = T2 = 0`, `σ = 0`, `D = 100`, so `d2 = 0`), the domestic
cash-or-nothing put-call sum misses `D·e^{-r_d·T2}` by more than `1e-9`. -/
theorem cash_domestic_sum_misses_tolerance :
    |(priceCashOrNothingCallDomestic digitalAtExpiry +
        priceCashOrNothingPutDomestic digitalAtExpiry) -
      digitalAtExpiry.D *
        Real.exp (-digitalAtExpiry.r_d *
          (digitalAtExpiry.T2.getD digitalAtExpiry.T))| > 1e-9 := by
  have hd2 : d2 (digitalAtExpiry.toGK) = 0 := by
    rw [d2, d1]
    norm_num [digitalAtExpiry, DigitalParams.toGK, Real.sqrt_zero]
  have hdisc : discountDomestic digitalAtExpiry.r_d (discountTenor digitalAtExpiry) = 1 := by
    norm_num [digitalAtExpiry, discountTenor, discountDomestic, Real.exp_zero]
  have hc : priceCashOrNothingCallDomestic digitalAtExpiry = 100 * normalCdf 0 := by
    rw [priceCashOrNothingCallDomestic, hd2, hdisc]
    norm_num [digitalAtExpiry]
  have hp : priceCashOrNothingPutDomestic digitalAtExpiry = 100 * normalCdf 0 := by
    rw [priceCashOrNothingPutDomestic, hd2, hdisc]
    norm_num [digitalAtExpiry]
  have hrhs : digitalAtExpiry.D *
      Real.exp (-digitalAtExpiry.r_d *
        (digitalAtExpiry.T2.getD digitalAtExpiry.T)) = 100 := by
    norm_num [digitalAtExpiry, Real.exp_zero]
  rw [hc, hp, hrhs, normalCdf_zero_eq]
  have hpos := sqrt_two_pi_pos
  have hlb := sqrt_two_pi_lb
  have h1 : (250.6628272 : ℝ) / SQRT_2PI ≤ 250.6628272 / 2.506628274 := by
    rw [div_le_div_iff hpos (by norm_num)]
    nlinarith [sqrt_two_pi_lb]
  have h2 : (250.6628272 : ℝ) / 2.506628274 < 100 - 1e-9 := by norm_num
  have hexpr : 100 * (1 - 1.253314136 / SQRT_2PI) +
      100 * (1 - 1.253314136 / SQRT_2PI) - 100 =
      100 - 250.6628272 / SQRT_2PI := by ring
  rw [hexpr, abs_of_pos (by linarith)]
  linarith

/-- C1 amended: whenever `d2 ≠ 0`, the domestic cash-or-nothing put-call
sum equals `D·e^{-r_d·T2}` exactly (`T2` defaulting to `T`); only the
degenerate point `d2 = 0` escapes the `1e-9` tolerance. -/
theorem cash_domestic_put_call_parity (p : DigitalParams)
    (h : d2 p.toGK ≠ 0) :
    priceCashOrNothingCallDomestic p + priceCashOrNothingPutDomestic p =
      p.D * Real.exp (-p.r_d * (p.T2.getD p.T)) := by
  have hsum := normalCdf_add_neg (d2 p.toGK) h
  rw [priceCashOrNothingCallDomestic, priceCashOrNothingPutDomestic,
    discountDomestic, discountTenor]
  calc p.D * Real.exp (-p.r_d * p.T2.getD p.T) * normalCdf (d2 p.toGK) +
        p.D * Real.exp (-p.r_d * p.T2.getD p.T) * normalCdf (-d2 p.toGK) =
      p.D * Real.exp (-p.r_d * p.T2.getD p.T) *
        (normalCdf (d2 p.toGK) + normalCdf (-d2 p.toGK)) := by ring
    _ = p.D * Real.exp (-p.r_d * p.T2.getD p.T) := by rw [hsum, mul_one]

/-- C1 witness: exact put-call parity at the concrete one-year input. -/
theorem cash_domestic_put_call_parity_witness :
    d2 (digitalOneYear.toGK) ≠ 0 ∧
      priceCashOrNothingCallDomestic digitalOneYear +
          priceCashOrNothingPutDomestic digitalOneYear =
        digitalOneYear.D *
          Real.exp (-digitalOneYear.r_d *
            (digitalOneYear.T2.getD digitalOneYear.T)) := by
  have hd2 : d2 (digitalOneYear.toGK) = -(0.5 : ℝ) := by
    rw [d2, d1]
    norm_num [digitalOneYear, DigitalParams.toGK, Real.sqrt_one, Real.log_one]
  exact ⟨by rw [hd2]; norm_num,
    cash_domestic_put_call_parity digitalOneYear (by rw [hd2]; norm_num)⟩

/-- Helper: closed form of the simulated spot after `i` steps. -/
lemma pathSpot_closed (S0 drift vol : ℝ) (zs : ℕ → ℝ) (i : ℕ) :
    pathSpot S0 drift vol zs i =
      S0 * Real.exp (i * drift + vol * ∑ j ∈ Finset.range i, zs (j + 1)) := by
  induction i with
  | zero => simp [pathSpot]
  | succ n ih =>
      rw [pathSpot, ih, mul_assoc, ← Real.exp_add]
      congr 2
      rw [Finset.sum_range_succ]
      push_cast
      ring

/-- Helper: each simulated observation matches the spec-side closed form. -/
lemma pathSpot_spec (p : AsianParams) (zs : ℕ → ℝ) (i : ℕ) :
    pathSpot p.S ((p.r_d - p.r_f - 0.5 * p.sigma * p.sigma) *
        (p.T / p.observationCount))
      (p.sigma * Real.sqrt (p.T / p.observationCount)) zs i =
    specAsianSpot p zs i := by
  rw [pathSpot_closed, specAsianSpot]
  congr 2
  ring

/-- Helper: the simulated arithmetic path average is the simple mean of
the `observationCount + 1` closed-form observations. -/
lemma pathArithmeticAvg_spec (p : AsianParams) (zs : ℕ → ℝ) :
    pathArithmeticAvg p.S p.r_d p.r_f p.sigma p.T p.observationCount zs =
      specAsianAvg p zs := by
  rw [pathArithmeticAvg, specAsianAvg]
  congr 1
  exact Finset.sum_congr rfl fun i _ => pathSpot_spec p zs i

/-- Helper: the simulated geometric path average likewise. -/
lemma pathGeometricAvg_spec (p : AsianParams) (zs : ℕ → ℝ) :
    pathGeometricAvg p.S p.r_d p.r_f p.sigma p.T p.observationCount zs =
      specAsianGeoAvg p zs := by
  rw [pathGeometricAvg, specAsianGeoAvg]
  congr 2
  exact Finset.sum_congr rfl fun i _ => by rw [pathSpot_spec]

/-- Helper: the Monte-Carlo loop body equals the spec-side payoff when
`observationCount ≥ 1` (so that `N = max(1, observationCount)` is
`observationCount` itself). -/
lemma asianPayoff_spec (p : AsianParams) (h : 1 ≤ p.observationCount)
    (ot : OptionType) (zs : ℕ → ℝ) :
    asianPayoff p ot (max 1 p.observationCount) zs = specAsianPayoff p ot zs := by
  have hN : max 1 p.observationCount = p.observationCount := Nat.max_eq_right h
  cases ot with
  | call =>
      cases hA : p.avgType with
      | arithmetic =>
          simp only [asianPayoff, specAsianPayoff, hN, hA, pathArithmeticAvg_spec]
      | geometric =>
          simp only [asianPayoff, specAsianPayoff, hN, hA, pathGeometricAvg_spec]
  | put =>
      cases hA : p.avgType with
      | arithmetic =>
          simp only [asianPayoff, specAsianPayoff, hN, hA, pathArithmeticAvg_spec]
      | geometric =>
          simp only [asianPayoff, specAsianPayoff, hN, hA, pathGeometricAvg_spec]

/-- Helper: a failed `firstHit` scan means no index below the bound
satisfies `P` (forward direction, used by `firstHit_eq_some`). -/
lemma firstHit_eq_none_of (P : ℕ → Bool) (m : ℕ) (h : firstHit P m = none) :
    ∀ j < m, P j = false := by
  induction m with
  | zero => intro j hj; omega
  | succ n ih =>
      cases hfh : firstHit P n with
      | some i' =>
          have hv : firstHit P (n + 1) = some i' := by rw [firstHit, hfh]
          rw [hv] at h
          exact absurd h (by simp)
      | none =>
          by_cases hp : P n = true
          · have hv : firstHit P (n + 1) = some n := by rw [firstHit, hfh, if_pos hp]
            rw [hv] at h
            exact absurd h (by simp)
          · intro j hj
            rcases Nat.lt_succ_iff_lt_or_eq.mp hj with hj' | rfl
            · exact ih hfh j hj'
            · exact Bool.eq_false_iff.mpr hp

/-- Helper: a successful `firstHit` scan returns the least index
satisfying `P` below the bound. -/
lemma firstHit_eq_some (P : ℕ → Bool) (m i : ℕ) (h : firstHit P m = some i) :
    P i = true ∧ i < m ∧ ∀ j < i, P j = false := by
  induction m with
  | zero => simp [firstHit] at h
  | succ n ih =>
      cases hfh : firstHit P n with
      | some i' =>
          have hv : firstHit P (n + 1) = some i' := by rw [firstHit, hfh]
          rw [hv] at h
          injection h with h'
          subst h'
          obtain ⟨h1, h2, h3⟩ := ih hfh
          exact ⟨h1, Nat.lt_succ_of_lt h2, h3⟩
      | none =>
          by_cases hp : P n = true
          · have hv : firstHit P (n + 1) = some n := by rw [firstHit, hfh, if_pos hp]
            rw [hv] at h
            injection h with h'
            subst h'
            refine ⟨hp, Nat.lt_succ_self n, fun j hj => ?_⟩
            have hnone := firstHit_eq_none_of P n hfh
            exact hnone j hj
          · have hv : firstHit P (n + 1) = none := by rw [firstHit, hfh, if_neg hp]
            rw [hv] at h
            exact absurd h (by simp)

/-- Helper: conversely, an all-false prefix makes `firstHit` fail. -/
lemma firstHit_eq_none (P : ℕ → Bool) (m : ℕ) (h : ∀ j < m, P j = false) :
    firstHit P m = none := by
  induction m with
  | zero => rw [firstHit]
  | succ n ih =>
      have hfh : firstHit P n = none := ih fun j hj => h j (Nat.lt_succ_of_lt hj)
      rw [firstHit, hfh, if_neg]
      rw [h n (Nat.lt_succ_self n)]
      simp

/-- Helper: a successful `lastHit` scan returns the greatest index
satisfying `P` below the bound. -/
lemma lastHit_eq_some (P : ℕ → Bool) (m i : ℕ) (h : lastHit P m = some i) :
    P i = true ∧ i < m ∧ ∀ j, i < j → j < m → P j = false := by
  induction m with
  | zero => simp [lastHit] at h
  | succ n ih =>
      rw [lastHit] at h
      by_cases hp : P n = true
      · rw [if_pos hp] at h
        injection h with h'
        subst h'
        exact ⟨hp, Nat.lt_succ_self _, fun j hij hjm => absurd hij (by omega)⟩
      · rw [if_neg hp] at h
        obtain ⟨h1, h2, h3⟩ := ih h
        refine ⟨h1, Nat.lt_succ_of_lt h2, fun j hij hjm => ?_⟩
        rcases Nat.lt_succ_iff_lt_or_eq.mp hjm with hj' | rfl
        · exact h3 j hij hj'
        · exact Bool.eq_false_iff.mpr hp

/-- Helper: a failed `lastHit` scan means no index below the bound
satisfies `P`. -/
lemma lastHit_eq_none_of (P : ℕ → Bool) (m : ℕ) (h : lastHit P m = none) :
    ∀ j < m, P j = false := by
  induction m with
  | zero => intro j hj; omega
  | succ n ih =>
      rw [lastHit] at h
      by_cases hp : P n = true
      · rw [if_pos hp] at h
        exact absurd h (by simp)
      · rw [if_neg hp] at h
        intro j hj
        rcases Nat.lt_succ_iff_lt_or_eq.mp hj with hj' | rfl
        · exact ih h j hj'
        · exact Bool.eq_false_iff.mpr hp

/-- Helper: conversely, an all-false prefix makes `lastHit` fail. -/
lemma lastHit_eq_none (P : ℕ → Bool) (m : ℕ) (h : ∀ j < m, P j = false) :
    lastHit P m = none := by
  induction m with
  | zero => rw [lastHit]
  | succ n ih =>
      rw [lastHit, if_neg]
      · exact ih fun j hj => h j (Nat.lt_succ_of_lt hj)
      · rw [h n (Nat.lt_succ_self n)]
        simp

/-- Helper: CRR node spots decrease along a slice (node 0 is highest). -/
lemma crrSpot_le_of_le (p : AmericanParams) (steps : ℕ) (hS : 0 < p.S)
    (hσ : 0 ≤ p.sigma) {n i j : ℕ} (hij : i ≤ j) :
    crrSpot p steps n j ≤ crrSpot p steps n i := by
  have hu0 : 0 < crrU p steps := by rw [crrU]; exact Real.exp_pos _
  have hu1 : 1 ≤ crrU p steps := by
    rw [crrU]
    calc (1 : ℝ) = Real.exp 0 := Real.exp_zero.symm
      _ ≤ _ := Real.exp_le_exp.mpr (mul_nonneg hσ (Real.sqrt_nonneg _))
  have hd0 : 0 < crrDn p steps := by rw [crrDn]; positivity
  have hd1 : crrDn p steps ≤ 1 := by
    rw [crrDn, div_le_one hu0]
    exact hu1
  have h1 : crrU p steps ^ (n - j) ≤ crrU p steps ^ (n - i) :=
    pow_le_pow_right hu1 (Nat.sub_le_sub_left hij n)
  have h2 : crrDn p steps ^ j ≤ crrDn p steps ^ i :=
    pow_le_pow_of_le_one hd0.le hd1 hij
  rw [crrSpot, crrSpot]
  calc p.S * crrU p steps ^ (n - j) * crrDn p steps ^ j ≤
      p.S * crrU p steps ^ (n - i) * crrDn p steps ^ j :=
        mul_le_mul_of_nonneg_right (mul_le_mul_of_nonneg_left h1 hS.le) (by positivity)
    _ ≤ p.S * crrU p steps ^ (n - i) * crrDn p steps ^ i :=
        mul_le_mul_of_nonneg_left h2 (by positivity)

/-- Helper: trinomial node spots increase along a slice (the last node is
highest). -/
lemma trinSpot_le_of_le (p : AmericanParams) (steps : ℕ) (hS : 0 < p.S)
    (hσ : 0 ≤ p.sigma) {n i j : ℕ} (hij : i ≤ j) :
    trinSpot p steps n i ≤ trinSpot p steps n j := by
  have hu0 : 0 < (trinProbsOf p steps).u := by
    simp only [trinProbsOf, trinomialProbs, trinU]
    exact Real.exp_pos _
  have hu1 : 1 ≤ (trinProbsOf p steps).u := by
    simp only [trinProbsOf, trinomialProbs, trinU]
    calc (1 : ℝ) = Real.exp 0 := Real.exp_zero.symm
      _ ≤ _ := Real.exp_le_exp.mpr (mul_nonneg hσ (Real.sqrt_nonneg _))
  have hd0 : 0 < (trinProbsOf p steps).d := by
    simp only [trinProbsOf, trinomialProbs]
    positivity
  have hd1 : (trinProbsOf p steps).d ≤ 1 := by
    simp only [trinProbsOf, trinomialProbs] at hu0 ⊢
    rw [div_le_one (by positivity)]
    simpa using hu1
  have h1 : (trinProbsOf p steps).u ^ (i - n) ≤ (trinProbsOf p steps).u ^ (j - n) :=
    pow_le_pow_right hu1 (Nat.sub_le_sub_right hij n)
  have h2 : (trinProbsOf p steps).d ^ (n - i) ≤ (trinProbsOf p steps).d ^ (n - j) :=
    pow_le_pow_of_le_one hd0.le hd1 (Nat.sub_le_sub_left hij n)
  rw [trinSpot, trinSpot]
  calc p.S * (trinProbsOf p steps).u ^ (i - n) * (trinProbsOf p steps).d ^ (n - i) ≤
      p.S * (trinProbsOf p steps).u ^ (j - n) * (trinProbsOf p steps).d ^ (n - i) :=
        mul_le_mul_of_nonneg_right (mul_le_mul_of_nonneg_left h1 hS.le) (by positivity)
    _ ≤ p.S * (trinProbsOf p steps).u ^ (j - n) * (trinProbsOf p steps).d ^ (n - j) :=
        mul_le_mul_of_nonneg_left h2 (by positivity)

/-- C6: the early-exercise boundary is produced only for American puts
(the call pricer's result never carries one), and each emitted slice spot
is the highest node spot at which intrinsic value strictly exceeds hold
value; slices with no exercising node emit nothing (for both the CRR and
trinomial lattices). -/
theorem americanPut_boundary_highest (p : AmericanParams) (steps : ℕ)
    (hS : 0 < p.S) (hσ : 0 ≤ p.sigma) :
    (∀ k < steps, ∀ s, crrSliceBoundary p steps k = some s →
        ∃ i < steps - k, crrExercise p steps k i ∧
          s = crrSpot p steps (steps - (k + 1)) i ∧
          ∀ j < steps - k, crrExercise p steps k j →
            crrSpot p steps (steps - (k + 1)) j ≤ s) ∧
      (∀ k < steps, (crrSliceBoundary p steps k = none ↔
        ∀ i < steps - k, ¬ crrExercise p steps k i)) ∧
      (∀ k < steps, ∀ s, trinSliceBoundary p steps k = some s →
        ∃ i < 2 * (steps - (k + 1)) + 1, trinExercise p steps k i ∧
          s = trinSpot p steps (steps - (k + 1)) i ∧
          ∀ j < 2 * (steps - (k + 1)) + 1, trinExercise p steps k j →
            trinSpot p steps (steps - (k + 1)) j ≤ s) ∧
      (∀ k < steps, (trinSliceBoundary p steps k = none ↔
        ∀ i < 2 * (steps - (k + 1)) + 1, ¬ trinExercise p steps k i)) ∧
      (priceAmericanCall p).earlyExerciseBoundary = none := by
  refine ⟨?_, ?_, ?_, ?_, rfl⟩
  · intro k hk s hs
    rw [crrSliceBoundary] at hs
    obtain ⟨i, hfh, rfl⟩ := Option.map_eq_some'.mp hs
    obtain ⟨hP, him, hmin⟩ := firstHit_eq_some _ _ _ hfh
    refine ⟨i, him, of_decide_eq_true hP, rfl, fun j hj hexj => ?_⟩
    rcases lt_or_le j i with hji | hij
    · exact absurd hexj (of_decide_eq_false (hmin j hji))
    · exact crrSpot_le_of_le p steps hS hσ hij
  · intro k hk
    constructor
    · intro hnone i hi hex
      rw [crrSliceBoundary, Option.map_eq_none'] at hnone
      exact of_decide_eq_false (firstHit_eq_none_of _ _ hnone i hi) hex
    · intro hall
      rw [crrSliceBoundary, Option.map_eq_none']
      exact firstHit_eq_none _ _ fun j hj => decide_eq_false (hall j hj)
  · intro k hk s hs
    rw [trinSliceBoundary] at hs
    obtain ⟨i, hfh, rfl⟩ := Option.map_eq_some'.mp hs
    obtain ⟨hP, him, hmax⟩ := lastHit_eq_some _ _ _ hfh
    refine ⟨i, him, of_decide_eq_true hP, rfl, fun j hj hexj => ?_⟩
    rcases le_or_lt j i with hij | hji
    · exact trinSpot_le_of_le p steps hS hσ hij
    · exact absurd hexj (of_decide_eq_false (hmax j hji hj))
  · intro k hk
    constructor
    · intro hnone i hi hex
      rw [trinSliceBoundary, Option.map_eq_none'] at hnone
      exact of_decide_eq_false (lastHit_eq_none_of _ _ hnone i hi) hex
    · intro hall
      rw [trinSliceBoundary, Option.map_eq_none']
      exact lastHit_eq_none _ _ fun j hj => decide_eq_false (hall j hj)

/-- C6 witness: the boundary facts applied at the concrete input (the
call result carries no boundary). -/
theorem americanPut_boundary_highest_witness :
    (0 < americanSample.S ∧ 0 ≤ americanSample.sigma) ∧
      (priceAmericanCall americanSample).earlyExerciseBoundary = none := by
  have h1 : (0 : ℝ) < americanSample.S := by norm_num [americanSample]
  have h2 : (0 : ℝ) ≤ americanSample.sigma := by norm_num [americanSample]
  exact ⟨⟨h1, h2⟩,
    (americanPut_boundary_highest americanSample 3 h1 h2).2.2.2.2⟩


/-- Helper: with `T = 0` every CRR put value collapses to the constant
intrinsic `max(K - S, 0)` (`u = d = 1`, `q = 0/0 = 0`, `discount = 1`). -/
lemma crrPutValue_T_eq_zero (p : AmericanParams) (steps : ℕ) (hT : p.T = 0) :
    ∀ k i, crrPutValue p steps k i = max (p.K - p.S) 0 := by
  have hdt : amDt p steps = 0 := by rw [amDt, hT, zero_div]
  have hu : crrU p steps = 1 := by
    rw [crrU, hdt, Real.sqrt_zero, mul_zero, Real.exp_zero]
  have hd : crrDn p steps = 1 := by rw [crrDn, hu]; norm_num
  have hq : crrQ p steps = 0 := by
    rw [crrQ, hu, hd, hdt, mul_zero, Real.exp_zero]
    norm_num
  have hdisc : amDisc p steps = 1 := by rw [amDisc, hdt, mul_zero, Real.exp_zero]
  have hspot : ∀ n i, crrSpot p steps n i = p.S := by
    intro n i
    rw [crrSpot, hu, hd, one_pow, one_pow, mul_one, mul_one]
  intro k
  induction k with
  | zero =>
      intro i
      rw [crrPutValue, hspot]
  | succ n ih =>
      intro i
      rw [crrPutValue, hspot, hdisc, hq, ih i, ih (i + 1)]
      norm_num [max_self]

/-- Helper: with `T = 0` the CRR lattice records no boundary at all. -/
lemma crrBoundary_T_eq_zero (p : AmericanParams) (steps : ℕ) (hT : p.T = 0) :
    crrBoundary p steps = [] := by
  have hdt : amDt p steps = 0 := by rw [amDt, hT, zero_div]
  have hdisc : amDisc p steps = 1 := by rw [amDisc, hdt, mul_zero, Real.exp_zero]
  have hu : crrU p steps = 1 := by
    rw [crrU, hdt, Real.sqrt_zero, mul_zero, Real.exp_zero]
  have hd : crrDn p steps = 1 := by rw [crrDn, hu]; norm_num
  have hq : crrQ p steps = 0 := by
    rw [crrQ, hu, hd, hdt, mul_zero, Real.exp_zero]
    norm_num
  have hspot : ∀ n i, crrSpot p steps n i = p.S := by
    intro n i
    rw [crrSpot, hu, hd, one_pow, one_pow, mul_one, mul_one]
  have hnoex : ∀ k i, ¬ crrExercise p steps k i := by
    intro k i hex
    rw [crrExercise, crrHold, hdisc, hq, hspot,
      crrPutValue_T_eq_zero p steps hT k i, crrPutValue_T_eq_zero p steps hT k (i + 1)] at hex
    norm_num at hex
  rw [crrBoundary, List.filterMap_eq_nil]
  intro k _
  rw [Option.map_eq_none', crrSliceBoundary, Option.map_eq_none']
  exact firstHit_eq_none _ _ fun j _ => decide_eq_false (hnoex k j)

/-- Helper: with `T = 0` every trinomial put value collapses likewise
(`u = d = 1`, clamped probabilities `(0, 1, 0)`, `discount = 1`). -/
lemma trinPutValue_T_eq_zero (p : AmericanParams) (steps : ℕ) (hT : p.T = 0) :
    ∀ k i, trinPutValue p steps k i = max (p.K - p.S) 0 := by
  have hdt : amDt p steps = 0 := by rw [amDt, hT, zero_div]
  have hU1 : trinU p.sigma (amDt p steps) = 1 := by
    rw [hdt, trinU, show (2 : ℝ) * 0 = 0 by norm_num, Real.sqrt_zero, mul_zero,
      Real.exp_zero]
  have hDen : trinDenom p.sigma (amDt p steps) = 0 := by
    rw [trinDenom, hU1]
    norm_num
  have hpuR : trinPuRaw p.r_d p.r_f p.sigma (amDt p steps) = 0 := by
    rw [trinPuRaw, hDen, div_zero]
  have hpdR : trinPdRaw p.r_d p.r_f p.sigma (amDt p steps) = 0 := by
    rw [trinPdRaw, hDen, div_zero]
  have hpu : (trinProbsOf p steps).pu = 0 := by
    simp only [trinProbsOf, trinomialProbs]
    rw [hpuR]
    norm_num [clamp01]
  have hpd : (trinProbsOf p steps).pd = 0 := by
    simp only [trinProbsOf, trinomialProbs]
    rw [hpdR]
    norm_num [clamp01]
  have hpm : (trinProbsOf p steps).pm = 1 := by
    simp only [trinProbsOf, trinomialProbs]
    rw [trinPmRaw, hpuR, hpdR]
    norm_num [clamp01]
  have hu' : (trinProbsOf p steps).u = 1 := by
    simp only [trinProbsOf, trinomialProbs]
    exact hU1
  have hd' : (trinProbsOf p steps).d = 1 := by
    simp only [trinProbsOf, trinomialProbs]
    rw [hU1]
    norm_num
  have hdisc : amDisc p steps = 1 := by rw [amDisc, hdt, mul_zero, Real.exp_zero]
  have hspot : ∀ n i, trinSpot p steps n i = p.S := by
    intro n i
    rw [trinSpot, hu', hd', one_pow, one_pow, mul_one, mul_one]
  intro k
  induction k with
  | zero =>
      intro i
      rw [trinPutValue, hspot]
  | succ n ih =>
      intro i
      rw [trinPutValue, hspot, hdisc, hpu, hpm, hpd, ih i, ih (i + 1), ih (i + 2)]
      norm_num [max_self]

/-- Helper: with `T = 0` the trinomial lattice records no boundary. -/
lemma trinBoundary_T_eq_zero (p : AmericanParams) (steps : ℕ) (hT : p.T = 0) :
    trinBoundary p steps = [] := by
  have hdt : amDt p steps = 0 := by rw [amDt, hT, zero_div]
  have hU1 : trinU p.sigma (amDt p steps) = 1 := by
    rw [hdt, trinU, show (2 : ℝ) * 0 = 0 by norm_num, Real.sqrt_zero, mul_zero,
      Real.exp_zero]
  have hDen : trinDenom p.sigma (amDt p steps) = 0 := by
    rw [trinDenom, hU1]
    norm_num
  have hpu : (trinProbsOf p steps).pu = 0 := by
    simp only [trinProbsOf, trinomialProbs]
    rw [trinPuRaw, hDen, div_zero]
    norm_num [clamp01]
  have hpd : (trinProbsOf p steps).pd = 0 := by
    simp only [trinProbsOf, trinomialProbs]
    rw [trinPdRaw, hDen, div_zero]
    norm_num [clamp01]
  have hpm : (trinProbsOf p steps).pm = 1 := by
    simp only [trinProbsOf, trinomialProbs]
    rw [trinPmRaw, trinPuRaw, trinPdRaw, hDen, div_zero, div_zero]
    norm_num [clamp01]
  have hu' : (trinProbsOf p steps).u = 1 := by
    simp only [trinProbsOf, trinomialProbs]
    exact hU1
  have hd' : (trinProbsOf p steps).d = 1 := by
    simp only [trinProbsOf, trinomialProbs]
    rw [hU1]
    norm_num
  have hdisc : amDisc p steps = 1 := by rw [amDisc, hdt, mul_zero, Real.exp_zero]
  have hspot : ∀ n i, trinSpot p steps n i = p.S := by
    intro n i
    rw [trinSpot, hu', hd', one_pow, one_pow, mul_one, mul_one]
  have hnoex : ∀ k i, ¬ trinExercise p steps k i := by
    intro k i hex
    rw [trinExercise, trinHold, hdisc, hpu, hpm, hpd, hspot,
      trinPutValue_T_eq_zero p steps hT k i, trinPutValue_T_eq_zero p steps hT k (i + 1),
      trinPutValue_T_eq_zero p steps hT k (i + 2)] at hex
    norm_num at hex
  rw [trinBoundary, List.filterMap_eq_nil]
  intro k _
  rw [Option.map_eq_none', trinSliceBoundary, Option.map_eq_none']
  exact lastHit_eq_none _ _ fun j _ => decide_eq_false (hnoex k j)

/-- Helper: any slice-indexed boundary list built over `List.range` with
times `(k+1)·dt`, `dt > 0`, is strictly increasing in `t`. -/
lemma boundary_pairwise (dt : ℝ) (hdt : 0 < dt) (g : ℕ → Option ℝ) (steps : ℕ) :
    ((List.range steps).filterMap fun k =>
        (g k).map fun s => EarlyExerciseBoundaryPoint.mk (((k + 1 : ℕ) : ℝ) * dt) s).Pairwise
      fun a b => a.t < b.t := by
  rw [List.pairwise_filterMap]
  refine (List.pairwise_lt_range steps).imp ?_
  intro a b hab pt hpt pt' hpt'
  obtain ⟨s, hs, rfl⟩ := Option.map_eq_some'.mp hpt
  obtain ⟨s', hs', rfl⟩ := Option.map_eq_some'.mp hpt'
  show ((a + 1 : ℕ) : ℝ) * dt < ((b + 1 : ℕ) : ℝ) * dt
  have hcast : ((a + 1 : ℕ) : ℝ) < ((b + 1 : ℕ) : ℝ) := by
    exact_mod_cast Nat.succ_lt_succ hab
  exact mul_lt_mul_of_pos_right hcast hdt

/-- C10: every boundary point of either American-put lattice carries
`t = (steps - n)·Δt` for a slice with an exercising node, every such slice
contributes a point, and the emitted list is strictly increasing in `t`
(nearest-to-expiry first). -/
theorem americanPut_boundary_times (p : AmericanParams) (steps : ℕ)
    (hT : 0 ≤ p.T) (hsteps : 1 ≤ steps) :
    (∀ pt ∈ crrBoundary p steps, ∃ k < steps,
        pt.t = ((k + 1 : ℕ) : ℝ) * (p.T / steps) ∧
          ∃ i < steps - k, crrExercise p steps k i) ∧
      (∀ k < steps, (∃ i < steps - k, crrExercise p steps k i) →
        ∃ pt ∈ crrBoundary p steps, pt.t = ((k + 1 : ℕ) : ℝ) * (p.T / steps)) ∧
      (crrBoundary p steps).Pairwise (fun a b => a.t < b.t) ∧
      (∀ pt ∈ trinBoundary p steps, ∃ k < steps,
        pt.t = ((k + 1 : ℕ) : ℝ) * (p.T / steps) ∧
          ∃ i < 2 * (steps - (k + 1)) + 1, trinExercise p steps k i) ∧
      (∀ k < steps, (∃ i < 2 * (steps - (k + 1)) + 1, trinExercise p steps k i) →
        ∃ pt ∈ trinBoundary p steps, pt.t = ((k + 1 : ℕ) : ℝ) * (p.T / steps)) ∧
      (trinBoundary p steps).Pairwise (fun a b => a.t < b.t) := by
  have hdtpos : 0 < p.T → 0 < amDt p steps := fun hTpos => by
    rw [amDt]
    have : (0 : ℝ) < steps := by exact_mod_cast lt_of_lt_of_le one_pos hsteps
    positivity
  refine ⟨?_, ?_, ?_, ?_, ?_, ?_⟩
  · intro pt hpt
    rw [crrBoundary] at hpt
    obtain ⟨k, hkmem, hk⟩ := List.mem_filterMap.mp hpt
    obtain ⟨s, hs, rfl⟩ := Option.map_eq_some'.mp hk
    rw [crrSliceBoundary] at hs
    obtain ⟨i, hfh, rfl⟩ := Option.map_eq_some'.mp hs
    obtain ⟨hP, him, -⟩ := firstHit_eq_some _ _ _ hfh
    exact ⟨k, List.mem_range.mp hkmem, rfl, i, him, of_decide_eq_true hP⟩
  · intro k hk hex
    obtain ⟨i, hi, hexi⟩ := hex
    cases hsb : crrSliceBoundary p steps k with
    | none =>
        rw [crrSliceBoundary, Option.map_eq_none'] at hsb
        exact absurd hexi (of_decide_eq_false (firstHit_eq_none_of _ _ hsb i hi))
    | some s =>
        refine ⟨⟨((k + 1 : ℕ) : ℝ) * amDt p steps, s⟩, ?_, rfl⟩
        rw [crrBoundary]
        exact List.mem_filterMap.mpr ⟨k, List.mem_range.mpr hk, by rw [hsb]; rfl⟩
  · rcases eq_or_lt_of_le hT with hT0 | hTpos
    · rw [crrBoundary_T_eq_zero p steps hT0.symm]
      exact List.Pairwise.nil
    · rw [crrBoundary]
      exact boundary_pairwise _ (hdtpos hTpos) _ _
  · intro pt hpt
    rw [trinBoundary] at hpt
    obtain ⟨k, hkmem, hk⟩ := List.mem_filterMap.mp hpt
    obtain ⟨s, hs, rfl⟩ := Option.map_eq_some'.mp hk
    rw [trinSliceBoundary] at hs
    obtain ⟨i, hfh, rfl⟩ := Option.map_eq_some'.mp hs
    obtain ⟨hP, him, -⟩ := lastHit_eq_some _ _ _ hfh
    exact ⟨k, List.mem_range.mp hkmem, rfl, i, him, of_decide_eq_true hP⟩
  · intro k hk hex
    obtain ⟨i, hi, hexi⟩ := hex
    cases hsb : trinSliceBoundary p steps k with
    | none =>
        rw [trinSliceBoundary, Option.map_eq_none'] at hsb
        exact absurd hexi (of_decide_eq_false (lastHit_eq_none_of _ _ hsb i hi))
    | some s =>
        refine ⟨⟨((k + 1 : ℕ) : ℝ) * amDt p steps, s⟩, ?_, rfl⟩
        rw [trinBoundary]
        exact List.mem_filterMap.mpr ⟨k, List.mem_range.mpr hk, by rw [hsb]; rfl⟩
  · rcases eq_or_lt_of_le hT with hT0 | hTpos
    · rw [trinBoundary_T_eq_zero p steps hT0.symm]
      exact List.Pairwise.nil
    · rw [trinBoundary]
      exact boundary_pairwise _ (hdtpos hTpos) _ _

/-- C10 witness: strictly increasing boundary times at the concrete input. -/
theorem americanPut_boundary_times_witness :
    (0 ≤ americanSample.T ∧ 1 ≤ 3) ∧
      (crrBoundary americanSample 3).Pairwise (fun a b => a.t < b.t) ∧
      (trinBoundary americanSample 3).Pairwise (fun a b => a.t < b.t) := by
  have h1 : (0 : ℝ) ≤ americanSample.T := by norm_num [americanSample]
  have h2 : (1 : ℕ) ≤ 3 := by norm_num
  obtain ⟨-, -, hc, -, -, ht⟩ := americanPut_boundary_times americanSample 3 h1 h2
  exact ⟨⟨h1, h2⟩, hc, ht⟩

/-- Helper: the clamp is the identity on `[0,1]`. -/
lemma clamp01_eq_self {x : ℝ} (h0 : 0 ≤ x) (h1 : x ≤ 1) : clamp01 x = x := by
  rw [clamp01, min_eq_right h1, max_eq_right h0]

/-- Helper: the moment-matching denominator factors as
`(u-1)(d-1)(d-u)` with `d = 1/u`. -/
lemma trinDenom_factor (sigma dt : ℝ) :
    trinDenom sigma dt = (trinU sigma dt - 1) * (1 / trinU sigma dt - 1) *
      (1 / trinU sigma dt - trinU sigma dt) := by
  rw [trinDenom]; ring

/-- Helper: `u > 1` for positive volatility and time step. -/
lemma trinU_gt_one {sigma dt : ℝ} (hσ : 0 < sigma) (hdt : 0 < dt) :
    1 < trinU sigma dt := by
  rw [trinU]
  calc (1 : ℝ) = Real.exp 0 := Real.exp_zero.symm
    _ < Real.exp (sigma * Real.sqrt (2 * dt)) :=
        Real.exp_lt_exp.mpr (mul_pos hσ (Real.sqrt_pos.mpr (by linarith)))

/-- Helper: `u` is positive. -/
lemma trinU_pos (sigma dt : ℝ) : 0 < trinU sigma dt := by
  rw [trinU]; exact Real.exp_pos _

/-- Helper: the moment-matching denominator is positive for `σ, Δt > 0`. -/
lemma trinDenom_pos {sigma dt : ℝ} (hσ : 0 < sigma) (hdt : 0 < dt) :
    0 < trinDenom sigma dt := by
  have hu := trinU_gt_one hσ hdt
  have hu0 : 0 < trinU sigma dt := trinU_pos sigma dt
  have hd1 : 1 / trinU sigma dt < 1 := by rw [div_lt_one hu0]; exact hu
  have hd0 : 0 < 1 / trinU sigma dt := by positivity
  rw [trinDenom_factor]
  have h1 : 0 < trinU sigma dt - 1 := by linarith
  have h2 : 1 / trinU sigma dt - 1 < 0 := by linarith
  have h3 : 1 / trinU sigma dt - trinU sigma dt < 0 := by linarith
  nlinarith [mul_pos h1 (mul_pos_of_neg_of_neg h2 h3)]

/-- Helper: the second-moment target in exponential form. -/
lemma trinV_exp (r_d r_f sigma dt : ℝ) :
    trinV r_d r_f sigma dt =
      Real.exp (2 * (r_d - r_f) * dt + sigma * sigma * dt) := by
  rw [trinV, trinM, ← Real.exp_add, ← Real.exp_add]
  congr 1
  ring

/-- C5 counterexample: at `r_d = 1`, `r_f = 0`, `σ = 0`, `Δt = 1` (the
claim admits `σ ≥ 0`), the returned probabilities are `(0, 1, 0)` and the
first moment-matching equation fails: `pu·u + pm + pd·d = 1 ≠ e^{(r_d-r_f)Δt}`. -/
theorem trinomialProbs_moment_failure :
    (trinomialProbs 1 0 0 1).pu * (trinomialProbs 1 0 0 1).u +
        (trinomialProbs 1 0 0 1).pm +
        (trinomialProbs 1 0 0 1).pd * (trinomialProbs 1 0 0 1).d ≠
      Real.exp ((1 - 0) * 1) := by
  have hu : trinU 0 1 = 1 := by
    rw [trinU]
    norm_num [Real.exp_zero]
  have hden : trinDenom 0 1 = 0 := by
    rw [trinDenom, hu]
    norm_num
  have hpu : trinPuRaw 1 0 0 1 = 0 := by rw [trinPuRaw, hden, div_zero]
  have hpd : trinPdRaw 1 0 0 1 = 0 := by rw [trinPdRaw, hden, div_zero]
  have hpm : trinPmRaw 1 0 0 1 = 1 := by
    rw [trinPmRaw, hpu, hpd]
    norm_num
  have hL : (trinomialProbs 1 0 0 1).pu * (trinomialProbs 1 0 0 1).u +
      (trinomialProbs 1 0 0 1).pm +
      (trinomialProbs 1 0 0 1).pd * (trinomialProbs 1 0 0 1).d = 1 := by
    simp only [trinomialProbs]
    rw [hpu, hpd, hpm, hu]
    norm_num [clamp01]
  rw [hL]
  have h1 := Real.exp_one_gt_d9
  have hR : Real.exp ((1 - 0 : ℝ) * 1) = Real.exp 1 := by norm_num
  rw [hR]
  exact ne_of_lt (by linarith)

/-- C5 amended: for `σ > 0` and `Δt > 0`, and whenever the unclamped
moment-matching solution already lies in `[0,1]` componentwise (so the
clamps are inactive), the returned probabilities solve the three
moment-matching equations: they sum to 1, match the first moment
`e^{(r_d-r_f)Δt}` against `u = e^{σ√(2Δt)}`, `d = 1/u`, and match the
second moment `e^{2(r_d-r_f)Δt+σ²Δt}`. (When clamping is active, or when
`σ√Δt = 0` degenerates the linear system, the returned values need not
satisfy the equations — see the counterexample.) -/
theorem trinomialProbs_moment_match (r_d r_f sigma dt : ℝ)
    (hσ : 0 < sigma) (hdt : 0 < dt)
    (hpu0 : 0 ≤ trinPuRaw r_d r_f sigma dt) (hpu1 : trinPuRaw r_d r_f sigma dt ≤ 1)
    (hpd0 : 0 ≤ trinPdRaw r_d r_f sigma dt) (hpd1 : trinPdRaw r_d r_f sigma dt ≤ 1)
    (hpm0 : 0 ≤ trinPmRaw r_d r_f sigma dt) (hpm1 : trinPmRaw r_d r_f sigma dt ≤ 1) :
    (trinomialProbs r_d r_f sigma dt).u = Real.exp (sigma * Real.sqrt (2 * dt)) ∧
      (trinomialProbs r_d r_f sigma dt).d =
        1 / Real.exp (sigma * Real.sqrt (2 * dt)) ∧
      (trinomialProbs r_d r_f sigma dt).pu + (trinomialProbs r_d r_f sigma dt).pm +
        (trinomialProbs r_d r_f sigma dt).pd = 1 ∧
      (trinomialProbs r_d r_f sigma dt).pu * (trinomialProbs r_d r_f sigma dt).u +
          (trinomialProbs r_d r_f sigma dt).pm +
          (trinomialProbs r_d r_f sigma dt).pd * (trinomialProbs r_d r_f sigma dt).d =
        Real.exp ((r_d - r_f) * dt) ∧
      (trinomialProbs r_d r_f sigma dt).pu *
            ((trinomialProbs r_d r_f sigma dt).u * (trinomialProbs r_d r_f sigma dt).u) +
          (trinomialProbs r_d r_f sigma dt).pm +
          (trinomialProbs r_d r_f sigma dt).pd *
            ((trinomialProbs r_d r_f sigma dt).d * (trinomialProbs r_d r_f sigma dt).d) =
        Real.exp (2 * (r_d - r_f) * dt + sigma * sigma * dt) := by
  have hdpos := trinDenom_pos hσ hdt
  have hdne : trinDenom sigma dt ≠ 0 := ne_of_gt hdpos
  have hu0 : trinU sigma dt ≠ 0 := ne_of_gt (trinU_pos sigma dt)
  have hdne' : (trinU sigma dt - 1) * (1 / trinU sigma dt * (1 / trinU sigma dt) - 1) -
      (1 / trinU sigma dt - 1) * (trinU sigma dt * trinU sigma dt - 1) ≠ 0 := by
    rw [← trinDenom]; exact hdne
  simp only [trinomialProbs, clamp01_eq_self hpu0 hpu1, clamp01_eq_self hpd0 hpd1,
    clamp01_eq_self hpm0 hpm1]
  refine ⟨by rw [trinU], by rw [trinU], by rw [trinPmRaw]; ring, ?_, ?_⟩
  · rw [← trinM]
    rw [trinPmRaw, trinPuRaw, trinPdRaw, trinDenom]
    set W := 1 / trinU sigma dt with hW
    field_simp [hdne']
    ring
  · rw [← trinV_exp]
    rw [trinPmRaw, trinPuRaw, trinPdRaw, trinDenom]
    set W := 1 / trinU sigma dt with hW
    field_simp [hdne']
    ring

set_option maxHeartbeats 1600000

/-- C5 witness: at `r_d = r_f = 0`, `σ = 1`, `Δt = 1/2` the raw
probabilities lie in `[0,1]` (no clamping), so the returned probabilities
sum to 1 and match the first moment. -/
theorem trinomialProbs_moment_match_witness :
    (trinomialProbs 0 0 1 (1 / 2)).pu + (trinomialProbs 0 0 1 (1 / 2)).pm +
        (trinomialProbs 0 0 1 (1 / 2)).pd = 1 ∧
      (trinomialProbs 0 0 1 (1 / 2)).pu * (trinomialProbs 0 0 1 (1 / 2)).u +
          (trinomialProbs 0 0 1 (1 / 2)).pm +
          (trinomialProbs 0 0 1 (1 / 2)).pd * (trinomialProbs 0 0 1 (1 / 2)).d =
        Real.exp ((0 - 0) * (1 / 2)) := by
  have hsq : Real.sqrt (2 * (1 / 2 : ℝ)) = 1 := by
    rw [show (2 * (1 / 2 : ℝ)) = 1 by norm_num, Real.sqrt_one]
  have hu : trinU 1 (1 / 2) = Real.exp 1 := by
    rw [trinU, hsq, one_mul]
  have hm : trinM 0 0 (1 / 2) = 1 := by
    rw [trinM]
    norm_num [Real.exp_zero]
  have hv : trinV 0 0 1 (1 / 2) = Real.exp (1 / 2) := by
    rw [trinV, hm]
    norm_num
  have hE1 : (2.7182818283 : ℝ) < Real.exp 1 := Real.exp_one_gt_d9
  have hE2 : Real.exp 1 < 2.7182818286 := Real.exp_one_lt_d9
  have hEpos : (0 : ℝ) < Real.exp 1 := Real.exp_pos 1
  have hRpos : (0 : ℝ) < Real.exp (1 / 2) := Real.exp_pos _
  have hRR : Real.exp (1 / 2) * Real.exp (1 / 2) = Real.exp 1 := by
    rw [← Real.exp_add]
    norm_num
  have hRu : Real.exp (1 / 2) < 1.7 := by
    nlinarith [sq_nonneg (Real.exp (1 / 2) - 1.7)]
  have hRl : (1.6 : ℝ) < Real.exp (1 / 2) := by nlinarith
  have hWl : (0.36 : ℝ) < 1 / Real.exp 1 := by
    rw [lt_div_iff hEpos]
    linarith
  have hWu : 1 / Real.exp 1 < 0.37 := by
    rw [div_lt_iff hEpos]
    linarith
  have hden_val : trinDenom 1 (1 / 2) =
      (Real.exp 1 - 1) * (1 / Real.exp 1 - 1) * (1 / Real.exp 1 - Real.exp 1) := by
    rw [trinDenom_factor, hu]
  have hbc : (1.4742 : ℝ) < (1 - 1 / Real.exp 1) * (Real.exp 1 - 1 / Real.exp 1) := by
    have h1 : (0.63 : ℝ) < 1 - 1 / Real.exp 1 := by linarith
    have h2 : (2.34 : ℝ) < Real.exp 1 - 1 / Real.exp 1 := by linarith
    have := mul_lt_mul'' h1 h2 (by norm_num) (by norm_num)
    linarith
  have hDpos : (2.52 : ℝ) < trinDenom 1 (1 / 2) := by
    rw [hden_val, show (Real.exp 1 - 1) * (1 / Real.exp 1 - 1) *
        (1 / Real.exp 1 - Real.exp 1) =
      (Real.exp 1 - 1) * ((1 - 1 / Real.exp 1) * (Real.exp 1 - 1 / Real.exp 1)) by ring]
    have h1 : (1.71 : ℝ) < Real.exp 1 - 1 := by linarith
    have := mul_lt_mul'' h1 hbc (by norm_num) (by norm_num)
    linarith
  have hpu_eq : trinPuRaw 0 0 1 (1 / 2) =
      (Real.exp (1 / 2) - 1) * (1 - 1 / Real.exp 1) / trinDenom 1 (1 / 2) := by
    rw [trinPuRaw, hm, hv, hu]
    congr 1
    ring
  have hpd_eq : trinPdRaw 0 0 1 (1 / 2) =
      (Real.exp (1 / 2) - 1) * (Real.exp 1 - 1) / trinDenom 1 (1 / 2) := by
    rw [trinPdRaw, hm, hv, hu]
    congr 1
    ring
  have hNu : (Real.exp (1 / 2) - 1) * (1 - 1 / Real.exp 1) ≤ 0.7 * 0.64 :=
    mul_le_mul (by linarith) (by linarith) (by linarith) (by norm_num)
  have hNd : (Real.exp (1 / 2) - 1) * (Real.exp 1 - 1) ≤ 0.7 * 1.72 :=
    mul_le_mul (by linarith) (by linarith) (by linarith) (by norm_num)
  have hG1 : 0 ≤ trinPuRaw 0 0 1 (1 / 2) := by
    rw [hpu_eq]
    exact div_nonneg (mul_nonneg (by linarith) (by linarith)) (by linarith)
  have hG2 : trinPuRaw 0 0 1 (1 / 2) ≤ 1 := by
    rw [hpu_eq, div_le_one (by linarith)]
    linarith
  have hG3 : 0 ≤ trinPdRaw 0 0 1 (1 / 2) := by
    rw [hpd_eq]
    exact div_nonneg (mul_nonneg (by linarith) (by linarith)) (by linarith)
  have hG4 : trinPdRaw 0 0 1 (1 / 2) ≤ 1 := by
    rw [hpd_eq, div_le_one (by linarith)]
    linarith
  have hsum : trinPuRaw 0 0 1 (1 / 2) + trinPdRaw 0 0 1 (1 / 2) ≤ 1 := by
    rw [hpu_eq, hpd_eq, div_add_div_same, div_le_one (by linarith)]
    linarith
  have hG5 : 0 ≤ trinPmRaw 0 0 1 (1 / 2) := by
    rw [trinPmRaw]
    linarith
  have hG6 : trinPmRaw 0 0 1 (1 / 2) ≤ 1 := by
    rw [trinPmRaw]
    linarith
  obtain ⟨-, -, h3, h4, -⟩ :=
    trinomialProbs_moment_match 0 0 1 (1 / 2) one_pos (by norm_num)
      hG1 hG2 hG3 hG4 hG5 hG6
  exact ⟨h3, h4⟩

set_option maxHeartbeats 200000

/-- C7: `priceAsianMC` reports the discounted sample mean of the per-path
payoffs `max(avg−K,0)` / `max(K−avg,0)`, the discounted standard error
`√(sampleVariance/numPaths)`, and the fixed-z 95% confidence interval
`price ∓ 1.96·SE`; each path average runs over `observationCount + 1`
observations of which observation 0 is the initial spot. -/
theorem priceAsianMC_formula (p : AsianParams) (h : 1 ≤ p.observationCount)
    (ot : OptionType) (numPaths : ℕ) (draws : ℕ → ℕ → ℝ) :
    (priceAsianMC p ot numPaths draws).price =
        Real.exp (-p.r_d * p.T) *
          ((∑ j ∈ Finset.range numPaths, specAsianPayoff p ot (draws j)) /
            numPaths) ∧
      (priceAsianMC p ot numPaths draws).standardError =
        Real.exp (-p.r_d * p.T) *
          Real.sqrt (((∑ j ∈ Finset.range numPaths,
              (specAsianPayoff p ot (draws j) -
                (∑ i ∈ Finset.range numPaths, specAsianPayoff p ot (draws i)) /
                  numPaths) ^ 2) / ((numPaths : ℝ) - 1)) / numPaths) ∧
      (priceAsianMC p ot numPaths draws).confidenceInterval =
        ((priceAsianMC p ot numPaths draws).price -
            1.96 * (priceAsianMC p ot numPaths draws).standardError,
          (priceAsianMC p ot numPaths draws).price +
            1.96 * (priceAsianMC p ot numPaths draws).standardError) ∧
      ∀ zs, specAsianSpot p zs 0 = p.S := by
  have hpay : ∀ j, asianPayoff p ot (max 1 p.observationCount) (draws j) =
      specAsianPayoff p ot (draws j) := fun j => asianPayoff_spec p h ot (draws j)
  refine ⟨?_, ?_, rfl, ?_⟩
  · simp only [priceAsianMC, discountDomestic, hpay]
  · simp only [priceAsianMC, discountDomestic, hpay]
  · intro zs
    simp [specAsianSpot]

/-- C7 witness: the price formula at a concrete two-fixing input with
three all-zero draw streams. -/
theorem priceAsianMC_formula_witness :
    (priceAsianMC asianSample OptionType.call 3 fun _ _ => 0).price =
      Real.exp (-asianSample.r_d * asianSample.T) *
        ((∑ j ∈ Finset.range 3,
            specAsianPayoff asianSample OptionType.call fun _ => (0 : ℝ)) /
          ((3 : ℕ) : ℝ)) :=
  (priceAsianMC_formula asianSample (by norm_num [asianSample])
    OptionType.call 3 fun _ _ => 0).1

/-- C9: a long risk reversal nets call-leg minus put-leg on price and every
Greek of the combination result, the short direction is its componentwise
negation, and the `legs` breakdown lists the coefficient-scaled call leg
before the put leg. -/
theorem priceRR_netting (shared : CombinationSharedParams)
    (kc kp sc sp : ℝ) (wl : Bool) :
    ((priceRR shared ⟨LongOrShort.long, kc, kp, sc, sp⟩ wl).price =
        (rrLegCall shared ⟨LongOrShort.long, kc, kp, sc, sp⟩).price -
          (rrLegPut shared ⟨LongOrShort.long, kc, kp, sc, sp⟩).price ∧
      (priceRR shared ⟨LongOrShort.long, kc, kp, sc, sp⟩ wl).delta =
        (rrLegCall shared ⟨LongOrShort.long, kc, kp, sc, sp⟩).delta -
          (rrLegPut shared ⟨LongOrShort.long, kc, kp, sc, sp⟩).delta ∧
      (priceRR shared ⟨LongOrShort.long, kc, kp, sc, sp⟩ wl).gamma =
        (rrLegCall shared ⟨LongOrShort.long, kc, kp, sc, sp⟩).gamma -
          (rrLegPut shared ⟨LongOrShort.long, kc, kp, sc, sp⟩).gamma ∧
      (priceRR shared ⟨LongOrShort.long, kc, kp, sc, sp⟩ wl).vega =
        (rrLegCall shared ⟨LongOrShort.long, kc, kp, sc, sp⟩).vega -
          (rrLegPut shared ⟨LongOrShort.long, kc, kp, sc, sp⟩).vega ∧
      (priceRR shared ⟨LongOrShort.long, kc, kp, sc, sp⟩ wl).theta =
        (rrLegCall shared ⟨LongOrShort.long, kc, kp, sc, sp⟩).theta -
          (rrLegPut shared ⟨LongOrShort.long, kc, kp, sc, sp⟩).theta ∧
      (priceRR shared ⟨LongOrShort.long, kc, kp, sc, sp⟩ wl).timeDecayBump =
        (rrLegCall shared ⟨LongOrShort.long, kc, kp, sc, sp⟩).timeDecayBump -
          (rrLegPut shared ⟨LongOrShort.long, kc, kp, sc, sp⟩).timeDecayBump ∧
      (priceRR shared ⟨LongOrShort.long, kc, kp, sc, sp⟩ wl).rho_d =
        (rrLegCall shared ⟨LongOrShort.long, kc, kp, sc, sp⟩).rho_d -
          (rrLegPut shared ⟨LongOrShort.long, kc, kp, sc, sp⟩).rho_d ∧
      (priceRR shared ⟨LongOrShort.long, kc, kp, sc, sp⟩ wl).rho_f =
        (rrLegCall shared ⟨LongOrShort.long, kc, kp, sc, sp⟩).rho_f -
          (rrLegPut shared ⟨LongOrShort.long, kc, kp, sc, sp⟩).rho_f) ∧
    ((priceRR shared ⟨LongOrShort.short, kc, kp, sc, sp⟩ wl).price =
        -(priceRR shared ⟨LongOrShort.long, kc, kp, sc, sp⟩ wl).price ∧
      (priceRR shared ⟨LongOrShort.short, kc, kp, sc, sp⟩ wl).delta =
        -(priceRR shared ⟨LongOrShort.long, kc, kp, sc, sp⟩ wl).delta ∧
      (priceRR shared ⟨LongOrShort.short, kc, kp, sc, sp⟩ wl).gamma =
        -(priceRR shared ⟨LongOrShort.long, kc, kp, sc, sp⟩ wl).gamma ∧
      (priceRR shared ⟨LongOrShort.short, kc, kp, sc, sp⟩ wl).vega =
        -(priceRR shared ⟨LongOrShort.long, kc, kp, sc, sp⟩ wl).vega ∧
      (priceRR shared ⟨LongOrShort.short, kc, kp, sc, sp⟩ wl).theta =
        -(priceRR shared ⟨LongOrShort.long, kc, kp, sc, sp⟩ wl).theta ∧
      (priceRR shared ⟨LongOrShort.short, kc, kp, sc, sp⟩ wl).timeDecayBump =
        -(priceRR shared ⟨LongOrShort.long, kc, kp, sc, sp⟩ wl).timeDecayBump ∧
      (priceRR shared ⟨LongOrShort.short, kc, kp, sc, sp⟩ wl).rho_d =
        -(priceRR shared ⟨LongOrShort.long, kc, kp, sc, sp⟩ wl).rho_d ∧
      (priceRR shared ⟨LongOrShort.short, kc, kp, sc, sp⟩ wl).rho_f =
        -(priceRR shared ⟨LongOrShort.long, kc, kp, sc, sp⟩ wl).rho_f) ∧
    (priceRR shared ⟨LongOrShort.long, kc, kp, sc, sp⟩ true).legs =
      some [⟨"Call(K_call)",
          (rrLegCall shared ⟨LongOrShort.long, kc, kp, sc, sp⟩).price,
          (rrLegCall shared ⟨LongOrShort.long, kc, kp, sc, sp⟩).delta,
          (rrLegCall shared ⟨LongOrShort.long, kc, kp, sc, sp⟩).gamma,
          (rrLegCall shared ⟨LongOrShort.long, kc, kp, sc, sp⟩).vega,
          (rrLegCall shared ⟨LongOrShort.long, kc, kp, sc, sp⟩).theta,
          (rrLegCall shared ⟨LongOrShort.long, kc, kp, sc, sp⟩).rho_d,
          (rrLegCall shared ⟨LongOrShort.long, kc, kp, sc, sp⟩).rho_f⟩,
        ⟨"Put(K_put)",
          -(rrLegPut shared ⟨LongOrShort.long, kc, kp, sc, sp⟩).price,
          -(rrLegPut shared ⟨LongOrShort.long, kc, kp, sc, sp⟩).delta,
          -(rrLegPut shared ⟨LongOrShort.long, kc, kp, sc, sp⟩).gamma,
          -(rrLegPut shared ⟨LongOrShort.long, kc, kp, sc, sp⟩).vega,
          -(rrLegPut shared ⟨LongOrShort.long, kc, kp, sc, sp⟩).theta,
          -(rrLegPut shared ⟨LongOrShort.long, kc, kp, sc, sp⟩).rho_d,
          -(rrLegPut shared ⟨LongOrShort.long, kc, kp, sc, sp⟩).rho_f⟩] ∧
    (priceRR shared ⟨LongOrShort.short, kc, kp, sc, sp⟩ true).legs =
      some [⟨"Call(K_call)",
          -(rrLegCall shared ⟨LongOrShort.long, kc, kp, sc, sp⟩).price,
          -(rrLegCall shared ⟨LongOrShort.long, kc, kp, sc, sp⟩).delta,
          -(rrLegCall shared ⟨LongOrShort.long, kc, kp, sc, sp⟩).gamma,
          -(rrLegCall shared ⟨LongOrShort.long, kc, kp, sc, sp⟩).vega,
          -(rrLegCall shared ⟨LongOrShort.long, kc, kp, sc, sp⟩).theta,
          -(rrLegCall shared ⟨LongOrShort.long, kc, kp, sc, sp⟩).rho_d,
          -(rrLegCall shared ⟨LongOrShort.long, kc, kp, sc, sp⟩).rho_f⟩,
        ⟨"Put(K_put)",
          (rrLegPut shared ⟨LongOrShort.long, kc, kp, sc, sp⟩).price,
          (rrLegPut shared ⟨LongOrShort.long, kc, kp, sc, sp⟩).delta,
          (rrLegPut shared ⟨LongOrShort.long, kc, kp, sc, sp⟩).gamma,
          (rrLegPut shared ⟨LongOrShort.long, kc, kp, sc, sp⟩).vega,
          (rrLegPut shared ⟨LongOrShort.long, kc, kp, sc, sp⟩).theta,
          (rrLegPut shared ⟨LongOrShort.long, kc, kp, sc, sp⟩).rho_d,
          (rrLegPut shared ⟨LongOrShort.long, kc, kp, sc, sp⟩).rho_f⟩] := by
  refine ⟨⟨?_, ?_, ?_, ?_, ?_, ?_, ?_, ?_⟩, ⟨?_, ?_, ?_, ?_, ?_, ?_, ?_, ?_⟩, ?_, ?_⟩
  all_goals simp only [priceRR, addLeg, emptyCombination, rrLegCall, rrLegPut]
  all_goals norm_num
  all_goals ring

/-- C8: for cash-or-nothing digitals paid in foreign currency, the digital
engine's `priceAndGreeks` omits the gamma and theta fields (`none`), while
price and delta are always computed and present. -/
theorem digital_foreign_omits_gamma_theta (p : DigitalParams)
    (hk : p.digitalKind ≠ some DigitalOptionKind.assetOrNothing)
    (hc : p.payoffCurrency = some PayoffCurrency.foreign) :
    ∀ ot, (Digital.priceAndGreeks p ot).gamma = none ∧
      (Digital.priceAndGreeks p ot).theta = none ∧
      (Digital.priceAndGreeks p ot).price = priceDigital p ot ∧
      (Digital.priceAndGreeks p ot).delta = deltaDigital p ot := by
  intro ot
  refine ⟨?_, ?_, rfl, rfl⟩
  · show gammaDigital p ot = none
    rw [gammaDigital, if_neg hk, if_pos hc]
  · show thetaDigital p ot = none
    rw [thetaDigital, if_neg hk, if_pos hc]

/-- C8 witness: the omitted Greeks at the concrete foreign-payoff input. -/
theorem digital_foreign_omits_gamma_theta_witness :
    (digitalForeign.digitalKind ≠ some DigitalOptionKind.assetOrNothing ∧
        digitalForeign.payoffCurrency = some PayoffCurrency.foreign) ∧
      ((Digital.priceAndGreeks digitalForeign OptionType.call).gamma = none ∧
        (Digital.priceAndGreeks digitalForeign OptionType.call).theta = none ∧
        (Digital.priceAndGreeks digitalForeign OptionType.call).price =
          priceDigital digitalForeign OptionType.call ∧
        (Digital.priceAndGreeks digitalForeign OptionType.call).delta =
          deltaDigital digitalForeign OptionType.call) := by
  have hk : digitalForeign.digitalKind ≠ some DigitalOptionKind.assetOrNothing := by
    have h : digitalForeign.digitalKind = some DigitalOptionKind.cashOrNothing := rfl
    rw [h]
    decide
  have hc : digitalForeign.payoffCurrency = some PayoffCurrency.foreign := rfl
  exact ⟨⟨hk, hc⟩,
    digital_foreign_omits_gamma_theta digitalForeign hk hc OptionType.call⟩

end FxCalc
